import Mathlib

/-!
DY-XXXX MP3 module UART driver: protocol codec.

A shallow embedding of `DYPlayer_Lib/src/DYPlayer.c` and of the command table
and enumerations of `DYPlayer_Lib/inc/DYPlayer.h`.

Conventions of the embedding:

* a `uint8_t` is a `Nat` below 256, a `uint16_t` a `Nat` below 65536; every
  place where the C code narrows a wider value is an explicit `u8` or `u16`;
* a buffer (`uint8_t *`, `uint8_t [n]`, `char *`) is a `List Nat`; reading
  index `i` is `getD i 0`, so a read past the end (undefined in C) yields 0 and
  a store past the end is dropped; the theorems state the bounds under which
  neither happens;
* a local array without initialiser has indeterminate contents: it is built by
  `uninit junk n` from an arbitrary function `junk`;
* the width of the enumeration `play_state_t` is the implementation's choice:
  the one function that casts a byte to it, `checkPlayState`, takes the choice
  as the parameter `shortEnums`, and what is proved of it holds for both;
* the UART is a log of transmit calls (`Tx`, oldest first) threaded through the
  writing functions, and a receive primitive `read` (a `Reader`) handed to the
  functions that read; the source calls `serialRead` a virtual method that
  should implement reading, and the one it ships is `serialRead rx`, where `rx`
  are the bytes that reach the receiver before its timeout.
-/

namespace DYPlayer

/-! ## Machine integers and buffers -/

/-- Conversion to `uint8_t`. -/
def u8 (n : Nat) : Nat := n % 256

/-- Conversion to `uint16_t`. -/
def u16 (n : Nat) : Nat := n % 65536

/-- The `len` bytes found at the start of `buffer`. -/
def bytesAt (buffer : List Nat) (len : Nat) : List Nat :=
  (List.range len).map fun i => buffer.getD i 0

/-- A local array of `n` bytes declared without initialiser. -/
def uninit (junk : Nat → Nat) (n : Nat) : List Nat :=
  (List.range n).map junk

/-- The transmit log: one entry per transmit call, oldest first. -/
abbrev Tx := List (List Nat)

/-- A receive primitive `read(buffer, len)`: the buffer after the call and the
returned `uint8_t`. -/
abbrev Reader := List Nat → Nat → List Nat × Nat

/-- All bytes of a transmit log, in the order they went over the wire. -/
def wire (tx : Tx) : List Nat := tx.flatten

/-! ## Header `DYPlayer.h` -/

def DY_PATH_LEN : Nat := 40

abbrev device_t := Nat
def Usb : device_t := 0x00
def Sd : device_t := 0x01
def Flash : device_t := 0x02
def Failed : device_t := 0xfe
def NoDevice : device_t := 0xff

/-- The play state enumeration has the values -1 to 2, so the integer type
behind it is the choice of the implementation: a signed byte when enumerations
are byte-sized (the `-fshort-enums` layout, usual on bare-metal ARM), `int`
otherwise. A play state is modelled by its integer value; the width enters
where a byte is cast, in `play_state_cast`. -/
abbrev play_state_t := Int
def Fail : play_state_t := -1
def Playing : play_state_t := 1
/-- The cast `(play_state_t) b` of a byte `b`. With byte-sized enumerations
(`shortEnums`) the target is a signed byte and a byte from 0x80 on wraps to
`b - 256`, so that 0xFF gives -1; with a wider enumeration type the byte keeps
its value. -/
def play_state_cast (shortEnums : Bool) (b : Nat) : play_state_t :=
  if shortEnums = true ∧ 128 ≤ b then Int.ofNat b - 256 else Int.ofNat b

abbrev eq_t := Nat
def Normal : eq_t := 0
def Pop : eq_t := 1
def Rock : eq_t := 2
def Jazz : eq_t := 3
def Classic : eq_t := 4

abbrev play_mode_t := Nat
def Repeat : play_mode_t := 0
def RepeatOne : play_mode_t := 1
def OneOff : play_mode_t := 2
def Random : play_mode_t := 3
def RepeatDir : play_mode_t := 4
def RandomDir : play_mode_t := 5
def SequenceDir : play_mode_t := 6
def Sequence : play_mode_t := 7

abbrev playDirSound_t := Nat
def FirstSound : playDirSound_t := 0
def LastSound : playDirSound_t := 1

def COMMANDCODE : Nat := 0xAA
def RFU : Nat := 0x00

def SIZEOF_CONTROLCOMMANDS : Nat := 10
def SIZEOF_QUERYCOMMANDS : Nat := 7
def SIZEOF_SETTINGCOMMANDS : Nat := 10
def SIZEOF_COMMANDS : Nat :=
  SIZEOF_CONTROLCOMMANDS + SIZEOF_QUERYCOMMANDS + SIZEOF_SETTINGCOMMANDS

def LENGTHOF_COMMANDS : Nat := 3
def LENGTHOF_CRC : Nat := 1
def CMD_CRC_INDEX : Nat := 3

def PLAY_CMD : Nat := 0
def PAUSE_CMD : Nat := 1
def STOP_CMD : Nat := 2
def PREV_CMD : Nat := 3
def NEXT_CMD : Nat := 4
def VOLUME_INC : Nat := 5
def VOLUME_DEC : Nat := 6
def PREV_FILE : Nat := 7
def NEXT_FILE : Nat := 8
def STOP_PLAYING : Nat := 9
def QPLAY_CMD : Nat := 10
def QCURRENTDEV_CMD : Nat := 11
def QCURRENTPLAY_CMD : Nat := 12
def QNUMBEROFSONG_CMD : Nat := 13
def QCURRENTSONG_CMD : Nat := 14
def QFOLDERDIR_CMD : Nat := 15
def QFOLDERNUMBER_CMD : Nat := 16
def SETVOLUME_CMD : Nat := 17
def SETLOOPMODE_CMD : Nat := 18
def SETCYCTIMES_CMD : Nat := 19
def SETEQ_CMD : Nat := 20
def SPECIFIEDSONG_CMD : Nat := 21
def SPECIFIEDPATH_CMD : Nat := 22
def SWTICHDRIVE_CMD : Nat := 23
def SPECSONGINTER_CMD : Nat := 24
def SPECPATHINTER_CMD : Nat := 25
def SLCTBUTNOPLAY_CMD : Nat := 26

/-- The static command table, one row of `LENGTHOF_COMMANDS + LENGTHOF_CRC`
bytes per command index. -/
def controlCommands : List (List Nat) :=
  [ [COMMANDCODE, 0x02, 0x00, 0xAC],
    [COMMANDCODE, 0x03, 0x00, 0xAD],
    [COMMANDCODE, 0x04, 0x00, 0xAE],
    [COMMANDCODE, 0x05, 0x00, 0xAF],
    [COMMANDCODE, 0x06, 0x00, 0xB0],
    [COMMANDCODE, 0x14, 0x00, 0xBE],
    [COMMANDCODE, 0x15, 0x00, 0xBF],
    [COMMANDCODE, 0x0E, 0x00, 0xB8],
    [COMMANDCODE, 0x0F, 0x00, 0xB9],
    [COMMANDCODE, 0x10, 0x00, 0xBA],
    [COMMANDCODE, 0x01, 0x00, 0xAB],
    [COMMANDCODE, 0x09, 0x00, 0xB3],
    [COMMANDCODE, 0x0A, 0x00, 0xB4],
    [COMMANDCODE, 0x0C, 0x00, 0xB6],
    [COMMANDCODE, 0x0D, 0x00, 0xB7],
    [COMMANDCODE, 0x11, 0x00, 0xBB],
    [COMMANDCODE, 0x12, 0x00, 0xBC],
    [COMMANDCODE, 0x13, 0x01, RFU],
    [COMMANDCODE, 0x18, 0x01, RFU],
    [COMMANDCODE, 0x19, 0x02, RFU],
    [COMMANDCODE, 0x1A, 0x01, RFU],
    [COMMANDCODE, 0x07, 0x02, RFU],
    [COMMANDCODE, 0x08, RFU, RFU],
    [COMMANDCODE, 0x0B, 0x01, RFU],
    [COMMANDCODE, 0x16, 0x03, RFU],
    [COMMANDCODE, 0x17, RFU, RFU],
    [COMMANDCODE, 0x1F, 0x02, RFU] ]

/-- Row `cmd` of the command table (`&controlCommands[cmd][0]`). -/
def row (cmd : Nat) : List Nat := controlCommands.getD cmd []

/-- The standard `memcpy(dst, src, n)` on buffers: the first `n` bytes of `dst`
become the first `n` bytes of `src`. -/
def memcpy (dst src : List Nat) (n : Nat) : List Nat :=
  (bytesAt src n).take dst.length ++ dst.drop n

/-- The standard `toupper` of `ctype.h` in the C locale. -/
def toupper (c : Nat) : Nat := if 97 ≤ c ∧ c ≤ 122 then c - 32 else c

/-! ## The transport -/

/-- Modelled from the spec: the vendor primitive `HAL_UART_Transmit` is outside
the repository; section 6 gives its contract (`write(bytes)`: transmit the
bytes over the wire). One call sends the `len` bytes at `buffer` and is
recorded as one entry of the log. -/
def HAL_UART_Transmit (tx : Tx) (buffer : List Nat) (len : Nat) : Tx :=
  tx ++ [bytesAt buffer len]

/-- Modelled from the spec: the vendor primitive `HAL_UART_Receive` is outside
the repository; section 6 gives its contract (`read(len)`: blocking read of up
to `len` bytes or timeout, returning the bytes actually received). The bytes
`rx` that arrive before the timeout, at most `len` of them, are stored at the
start of `buffer`; the rest of `buffer` keeps what it held. -/
def HAL_UART_Receive (buffer : List Nat) (len : Nat) (rx : List Nat) : List Nat :=
  (rx.take len).take buffer.length ++ buffer.drop (rx.take len).length

/-- Source lines 25-29. -/
def serialWrite (tx : Tx) (buffer : List Nat) (len : Nat) : Tx :=
  HAL_UART_Transmit tx buffer len

/-- Source lines 38-44: a one-byte buffer holding `crc` is transmitted. -/
def serialWrite_crc (tx : Tx) (crc : Nat) : Tx :=
  let buf := [crc]
  HAL_UART_Transmit tx buf 1

/-- Source lines 52-57, when the bytes `rx` arrive before the timeout: the
buffer after the receive call, and the returned value, which is the constant
`true`. -/
def serialRead (rx : List Nat) : Reader := fun buffer len =>
  (HAL_UART_Receive buffer len rx, 1)

/-! ## Checksum and validation -/

/-- Source lines 65-71: the loop `for (i = 0; i < len; i++) sum = sum + data[i]`
with a `uint8_t` accumulator. -/
def checksum (data : List Nat) (len : Nat) : Nat :=
  (List.range len).foldl (fun sum i => u8 (sum + data.getD i 0)) 0

/-- Source lines 79-82. The argument `len - 1` of `checksum` is narrowed to
`uint8_t`. -/
def validateCrc (data : List Nat) (len : Nat) : Bool :=
  let crc := if len = 0 then 0 else data.getD (len - 1) 0
  checksum data (u8 (len + 255)) == crc

/-- Source lines 90-95. -/
def sendCommand_nocrc (tx : Tx) (data : List Nat) (len : Nat) : Tx :=
  let crc := checksum data len
  let tx := serialWrite tx data len
  serialWrite_crc tx crc

/-- Source lines 103-106. -/
def sendCommand (tx : Tx) (data : List Nat) (len : Nat) (crc : Nat) : Tx :=
  let tx := serialWrite tx data len
  serialWrite_crc tx crc

/-- Source lines 115-122: the buffer after the read and the returned flag. -/
def getResponse (read : Reader) (buffer : List Nat) (len : Nat) : List Nat × Bool :=
  let r := read buffer len
  if r.2 > 0 then
    if validateCrc r.1 len then (r.1, true) else (r.1, false)
  else (r.1, false)

/-! ## Path commands -/

/-- Source lines 141-146: the expanded length, one more for every slash at an
index from 1 on, counted in a `uint8_t`. -/
def pathLen (path : List Nat) (len : Nat) : Nat :=
  (List.range' 1 (len - 1)).foldl
    (fun l i => if path.getD i 0 = 0x2F then u8 (l + 1) else l) len

/-- Source lines 160-171: one pass of the encoding loop for the character `c`,
on the command buffer and the `uint8_t` cursor `j`. -/
def pathStep (st : List Nat × Nat) (c : Nat) : List Nat × Nat :=
  if c = 0x2E then
    (st.1.set st.2 0x2A, u8 (st.2 + 1))
  else if c = 0x2F then
    let cmd := st.1.set st.2 0x2A
    let j := u8 (st.2 + 1)
    (cmd.set j (u8 (toupper c)), u8 (j + 1))
  else
    (st.1.set st.2 (u8 (toupper c)), u8 (st.2 + 1))

/-- Source lines 150-172, for a path of `len >= 1` characters: the stack buffer
of `DY_PATH_LEN + 4` bytes and the cursor `j` when the encoding loop ends. -/
def pathBuffer (junk : Nat → Nat) (command device : Nat) (path : List Nat)
    (len : Nat) : List Nat × Nat :=
  let _len := pathLen path len
  let _command := uninit junk (DY_PATH_LEN + 4)
  let _command := _command.set 0 0xaa
  let _command := _command.set 1 command
  let _command := _command.set 2 (u8 (_len + 1))
  let _command := _command.set 3 (u8 device)
  let _command := _command.set 4 (path.getD 0 0)
  (List.range' 1 (len - 1)).foldl (fun st i => pathStep st (path.getD i 0))
    (_command, 5)

/-- Source lines 138-177. The string `path` is the list of its characters
before the terminator, so `strlen(path)` is its length. -/
def byPathCommand (tx : Tx) (junk : Nat → Nat) (command device : Nat)
    (path : List Nat) : Tx :=
  let len := u8 path.length
  if len < 1 then tx
  else
    let st := pathBuffer junk command device path len
    sendCommand_nocrc tx st.1 (u8 (len + 4))

/-! ## Operations -/

/-- The value `(buffer[3] << 8) | buffer[4]` returned as `uint16_t`. -/
def be16 (buffer : List Nat) : Nat :=
  u16 ((buffer.getD 3 0 <<< 8) ||| buffer.getD 4 0)

/-- Source lines 185-201, in a build where enumerations are byte-sized
(`shortEnums`) or not. -/
def checkPlayState (shortEnums : Bool) (read : Reader) (tx : Tx) (junk : Nat → Nat) :
    play_state_t × Tx :=
  let tx := sendCommand tx (row QPLAY_CMD) LENGTHOF_COMMANDS
    ((row QPLAY_CMD).getD CMD_CRC_INDEX 0)
  let buffer := uninit junk 6
  let r := getResponse read buffer 6
  if r.2 then (play_state_cast shortEnums (r.1.getD 3 0), tx) else (Fail, tx)

/-- Source lines 209-217. -/
def play (tx : Tx) : Tx :=
  sendCommand tx (row PLAY_CMD) LENGTHOF_COMMANDS ((row PLAY_CMD).getD CMD_CRC_INDEX 0)

/-- Source lines 225-234. -/
def pause (tx : Tx) : Tx :=
  sendCommand tx (row PAUSE_CMD) LENGTHOF_COMMANDS ((row PAUSE_CMD).getD CMD_CRC_INDEX 0)

/-- Source lines 242-250. -/
def stop (tx : Tx) : Tx :=
  sendCommand tx (row STOP_CMD) LENGTHOF_COMMANDS ((row STOP_CMD).getD CMD_CRC_INDEX 0)

/-- Source lines 258-265. -/
def previous (tx : Tx) : Tx :=
  sendCommand tx (row PREV_CMD) LENGTHOF_COMMANDS ((row PREV_CMD).getD CMD_CRC_INDEX 0)

/-- Source lines 273-281. -/
def next (tx : Tx) : Tx :=
  sendCommand tx (row PREV_CMD) LENGTHOF_COMMANDS ((row PREV_CMD).getD CMD_CRC_INDEX 0)

/-- Source lines 289-302. -/
def playSpecified (tx : Tx) (number : Nat) : Tx :=
  let command := List.replicate 5 0
  let command := memcpy command (row SPECIFIEDSONG_CMD) LENGTHOF_COMMANDS
  let command := command.set 3 (u8 (number >>> 8))
  let command := command.set 4 (u8 (number &&& 0xff))
  sendCommand_nocrc tx command 5

/-- Source lines 310-312. -/
def playSpecifiedDevicePath (tx : Tx) (junk : Nat → Nat) (device : device_t)
    (path : List Nat) : Tx :=
  byPathCommand tx junk 0x08 device path

/-- Source lines 320-335. -/
def getPlayingDevice (read : Reader) (tx : Tx) (junk : Nat → Nat) : device_t × Tx :=
  let tx := sendCommand tx (row QCURRENTPLAY_CMD) LENGTHOF_COMMANDS
    ((row QCURRENTPLAY_CMD).getD CMD_CRC_INDEX 0)
  let buffer := uninit junk 5
  let r := getResponse read buffer 5
  if r.2 then (r.1.getD 3 0, tx) else (Failed, tx)

/-- Source lines 345-358. -/
def setPlayingDevice (tx : Tx) (device : device_t) : Tx :=
  let command := List.replicate 4 0
  let command := memcpy command (row SWTICHDRIVE_CMD) LENGTHOF_COMMANDS
  let command := command.set 3 (u8 device)
  sendCommand_nocrc tx command 4

/-- Source lines 366-381. -/
def getSoundCount (read : Reader) (tx : Tx) (junk : Nat → Nat) : Nat × Tx :=
  let tx := sendCommand tx (row QNUMBEROFSONG_CMD) LENGTHOF_COMMANDS
    ((row QNUMBEROFSONG_CMD).getD CMD_CRC_INDEX 0)
  let buffer := uninit junk 6
  let r := getResponse read buffer 6
  if r.2 then (be16 r.1, tx) else (0, tx)

/-- Source lines 389-404. -/
def getPlayingSound (read : Reader) (tx : Tx) (junk : Nat → Nat) : Nat × Tx :=
  let tx := sendCommand tx (row QCURRENTSONG_CMD) LENGTHOF_COMMANDS
    ((row QCURRENTSONG_CMD).getD CMD_CRC_INDEX 0)
  let buffer := uninit junk 6
  let r := getResponse read buffer 6
  if r.2 then (be16 r.1, tx) else (0, tx)

/-- Source lines 412-435. -/
def previousDir (tx : Tx) (song : playDirSound_t) : Tx :=
  if song = LastSound then
    sendCommand tx (row PREV_FILE) LENGTHOF_COMMANDS ((row PREV_FILE).getD CMD_CRC_INDEX 0)
  else
    sendCommand tx (row NEXT_FILE) LENGTHOF_COMMANDS ((row NEXT_FILE).getD CMD_CRC_INDEX 0)

/-- Source lines 443-458. -/
def getFirstInDir (read : Reader) (tx : Tx) (junk : Nat → Nat) : Nat × Tx :=
  let tx := sendCommand tx (row QFOLDERDIR_CMD) LENGTHOF_COMMANDS
    ((row QFOLDERDIR_CMD).getD CMD_CRC_INDEX 0)
  let buffer := uninit junk 6
  let r := getResponse read buffer 6
  if r.2 then (be16 r.1, tx) else (0, tx)

/-- Source lines 466-481. -/
def getSoundCountDir (read : Reader) (tx : Tx) (junk : Nat → Nat) : Nat × Tx :=
  let tx := sendCommand tx (row QFOLDERNUMBER_CMD) LENGTHOF_COMMANDS
    ((row QFOLDERNUMBER_CMD).getD CMD_CRC_INDEX 0)
  let buffer := uninit junk 6
  let r := getResponse read buffer 6
  if r.2 then (be16 r.1, tx) else (0, tx)

/-- Source lines 490-503. -/
def setVolume (tx : Tx) (volume : Nat) : Tx :=
  let command := List.replicate 4 0
  let command := memcpy command (row SETVOLUME_CMD) LENGTHOF_COMMANDS
  let command := command.set 3 volume
  sendCommand_nocrc tx command 4

/-- Source lines 511-520. -/
def volumeIncrease (tx : Tx) : Tx :=
  sendCommand tx (row VOLUME_INC) LENGTHOF_COMMANDS ((row VOLUME_INC).getD CMD_CRC_INDEX 0)

/-- Source lines 528-537. -/
def volumeDecrease (tx : Tx) : Tx :=
  sendCommand tx (row VOLUME_DEC) LENGTHOF_COMMANDS ((row VOLUME_DEC).getD CMD_CRC_INDEX 0)

/-- Source lines 549-557. -/
def interludeSpecified (tx : Tx) (device : device_t) (number : Nat) : Tx :=
  let command := [0xaa, 0x0b, 0x03, 0x00, 0x00, 0x00]
  let command := command.set 3 (u8 device)
  let command := command.set 4 (u8 (number >>> 8))
  let command := command.set 5 (u8 (number &&& 0xff))
  sendCommand_nocrc tx command 6

/-- Source lines 569-571. -/
def interludeSpecifiedDevicePath (tx : Tx) (junk : Nat → Nat) (device : device_t)
    (path : List Nat) : Tx :=
  byPathCommand tx junk 0x17 device path

/-- Source lines 579-587. -/
def stopInterlude (tx : Tx) : Tx :=
  sendCommand tx (row STOP_PLAYING) LENGTHOF_COMMANDS
    ((row STOP_PLAYING).getD CMD_CRC_INDEX 0)

/-- Source lines 595-607. -/
def setCycleMode (tx : Tx) (mode : play_mode_t) : Tx :=
  let command := List.replicate 4 0
  let command := memcpy command (row SETLOOPMODE_CMD) LENGTHOF_COMMANDS
  let command := command.set 3 (u8 mode)
  sendCommand_nocrc tx command 4

/-- Source lines 615-629. -/
def setCycleTimes (tx : Tx) (cycles : Nat) : Tx :=
  let command := List.replicate 5 0
  let command := memcpy command (row SETCYCTIMES_CMD) LENGTHOF_COMMANDS
  let command := command.set 3 (u8 (cycles >>> 8))
  let command := command.set 4 (u8 (cycles &&& 0xff))
  sendCommand_nocrc tx command 5

/-- Source lines 637-650. -/
def setEq (tx : Tx) (eq : eq_t) : Tx :=
  let command := List.replicate 4 0
  let command := memcpy command (row SETEQ_CMD) LENGTHOF_COMMANDS
  let command := command.set 3 (u8 eq)
  sendCommand_nocrc tx command 4

/-- Source lines 658-672. -/
def select (tx : Tx) (number : Nat) : Tx :=
  let command := List.replicate 5 0
  let command := memcpy command (row SLCTBUTNOPLAY_CMD) LENGTHOF_COMMANDS
  let command := command.set 3 (u8 (number >>> 8))
  let command := command.set 4 (u8 (number &&& 0xff))
  sendCommand_nocrc tx command 5

/-- Source lines 703-706: one pass of the token loop, on the running checksum
and the transmit log. -/
def combinationStep (sounds : List (List Nat)) (st : Nat × Tx) (i : Nat) : Nat × Tx :=
  let crc := u8 (st.1 + checksum (sounds.getD i []) 2)
  let tx := serialWrite st.2 (sounds.getD i []) 2
  (crc, tx)

/-- Source lines 691-709. -/
def combinationPlay (tx : Tx) (sounds : List (List Nat)) (len : Nat) : Tx :=
  if len < 1 then tx
  else
    let command := [0xaa, 0x1b, 0x00]
    let command := command.set 2 (u8 (len * 2))
    let crc := checksum command 3
    let tx := serialWrite tx command 3
    let st := (List.range len).foldl (combinationStep sounds) (crc, tx)
    serialWrite_crc st.2 st.1

/-- Source lines 717-720. -/
def endCombinationPlay (tx : Tx) : Tx :=
  let command := [0xaa, 0x1c, 0x00]
  sendCommand tx command 3 0xc6

/-- Source lines 728-742. -/
def getCycleMode (tx : Tx) (mode : play_mode_t) : Tx :=
  let command := List.replicate 4 0
  let command := memcpy command (row SETLOOPMODE_CMD) LENGTHOF_COMMANDS
  let command := command.set 3 (u8 mode)
  sendCommand_nocrc tx command 4

/-! ## The interface as a whole -/

/-- A call of one of the operations the driver offers to its user, with its
arguments; for an operation that declares a local array or reads a response,
the indeterminate contents `junk` of the array and the receive primitive
`read` belong to the call. The transport and codec primitives (`serialWrite`,
`serialWrite_crc`, `serialRead`, `checksum`, `validateCrc`, `sendCommand`,
`sendCommand_nocrc`, `getResponse`, `byPathCommand`) are what the operations
are made of and are not calls of this kind. -/
inductive Op where
  | checkPlayState (shortEnums : Bool) (read : Reader) (junk : Nat → Nat)
  | play
  | pause
  | stop
  | previous
  | next
  | playSpecified (number : Nat)
  | playSpecifiedDevicePath (junk : Nat → Nat) (device : device_t) (path : List Nat)
  | getPlayingDevice (read : Reader) (junk : Nat → Nat)
  | setPlayingDevice (device : device_t)
  | getSoundCount (read : Reader) (junk : Nat → Nat)
  | getPlayingSound (read : Reader) (junk : Nat → Nat)
  | previousDir (song : playDirSound_t)
  | getFirstInDir (read : Reader) (junk : Nat → Nat)
  | getSoundCountDir (read : Reader) (junk : Nat → Nat)
  | setVolume (volume : Nat)
  | volumeIncrease
  | volumeDecrease
  | interludeSpecified (device : device_t) (number : Nat)
  | interludeSpecifiedDevicePath (junk : Nat → Nat) (device : device_t) (path : List Nat)
  | stopInterlude
  | setCycleMode (mode : play_mode_t)
  | setCycleTimes (cycles : Nat)
  | setEq (eq : eq_t)
  | select (number : Nat)
  | combinationPlay (sounds : List (List Nat)) (len : Nat)
  | endCombinationPlay
  | getCycleMode (mode : play_mode_t)

/-- The transmit log a call leaves behind when it starts on an empty log. -/
def run : Op → Tx
  | .checkPlayState shortEnums read junk =>
      (DYPlayer.checkPlayState shortEnums read [] junk).2
  | .play => DYPlayer.play []
  | .pause => DYPlayer.pause []
  | .stop => DYPlayer.stop []
  | .previous => DYPlayer.previous []
  | .next => DYPlayer.next []
  | .playSpecified number => DYPlayer.playSpecified [] number
  | .playSpecifiedDevicePath junk device path =>
      DYPlayer.playSpecifiedDevicePath [] junk device path
  | .getPlayingDevice read junk => (DYPlayer.getPlayingDevice read [] junk).2
  | .setPlayingDevice device => DYPlayer.setPlayingDevice [] device
  | .getSoundCount read junk => (DYPlayer.getSoundCount read [] junk).2
  | .getPlayingSound read junk => (DYPlayer.getPlayingSound read [] junk).2
  | .previousDir song => DYPlayer.previousDir [] song
  | .getFirstInDir read junk => (DYPlayer.getFirstInDir read [] junk).2
  | .getSoundCountDir read junk => (DYPlayer.getSoundCountDir read [] junk).2
  | .setVolume volume => DYPlayer.setVolume [] volume
  | .volumeIncrease => DYPlayer.volumeIncrease []
  | .volumeDecrease => DYPlayer.volumeDecrease []
  | .interludeSpecified device number => DYPlayer.interludeSpecified [] device number
  | .interludeSpecifiedDevicePath junk device path =>
      DYPlayer.interludeSpecifiedDevicePath [] junk device path
  | .stopInterlude => DYPlayer.stopInterlude []
  | .setCycleMode mode => DYPlayer.setCycleMode [] mode
  | .setCycleTimes cycles => DYPlayer.setCycleTimes [] cycles
  | .setEq eq => DYPlayer.setEq [] eq
  | .select number => DYPlayer.select [] number
  | .combinationPlay sounds len => DYPlayer.combinationPlay [] sounds len
  | .endCombinationPlay => DYPlayer.endCombinationPlay []
  | .getCycleMode mode => DYPlayer.getCycleMode [] mode

/-- The expanded length of a path in the words of the specification (section
4.4, step 2): its length plus one for every slash that is not at index 0. -/
def expandedLength (path : List Nat) : Nat :=
  path.length + (path.drop 1).count 0x2F

/-- The conditions on the arguments of a call: a path is not empty and its
expanded length fits `DY_PATH_LEN`; the playlist holds `len` tokens and every
token has two bytes. -/
def admissible : Op → Prop
  | .playSpecifiedDevicePath _ _ path =>
      1 ≤ path.length ∧ expandedLength path ≤ DY_PATH_LEN
  | .interludeSpecifiedDevicePath _ _ path =>
      1 ≤ path.length ∧ expandedLength path ≤ DY_PATH_LEN
  | .combinationPlay sounds len => len ≤ sounds.length ∧ ∀ t ∈ sounds, t.length = 2
  | _ => True

/-- A byte stream is framed when it is empty, or starts with the command code
and ends with the sum of all bytes before the last one, modulo 256. -/
def framed (w : List Nat) : Prop :=
  w = [] ∨ (w.head? = some 0xAA ∧ w.getLast? = some (w.dropLast.sum % 256))

/-- The characters of the path `/SONGS1/FILE1.MP3`. -/
def songPath : List Nat :=
  [0x2F, 0x53, 0x4F, 0x4E, 0x47, 0x53, 0x31, 0x2F, 0x46, 0x49, 0x4C, 0x45, 0x31, 0x2E,
    0x4D, 0x50, 0x33]

/-- The characters of the encoded path `/SONGS1*/FILE1*MP3`. -/
def songPathEncoded : List Nat :=
  [0x2F, 0x53, 0x4F, 0x4E, 0x47, 0x53, 0x31, 0x2A, 0x2F, 0x46, 0x49, 0x4C, 0x45, 0x31,
    0x2A, 0x4D, 0x50, 0x33]

/-- The encoding of one path character at an index from 1 on, in the words of
the specification (section 4.4, step 5): a dot becomes a star, a slash becomes
a star followed by the slash, any other character is upper-cased. -/
def encodeChar (c : Nat) : List Nat :=
  if c = 0x2E then [0x2A]
  else if c = 0x2F then [0x2A, 0x2F]
  else [toupper c]

/-- The encoded path in the words of the specification (section 4.4, steps 4
and 5): the first character as it is, then the encoding of every later one. -/
def encodedPath (path : List Nat) : List Nat :=
  path.take 1 ++ ((path.drop 1).map encodeChar).flatten

/-- The playlist `"01"`, `"02"`, `"03"`. -/
def sounds123 : List (List Nat) := [[0x30, 0x31], [0x30, 0x32], [0x30, 0x33]]

/-- Source lines 160-171: the buffer indices one pass of the encoding loop
stores to, for the cursor `j` and the character `c`. -/
def pathStepStores (j c : Nat) : List Nat :=
  if c = 0x2E then [j]
  else if c = 0x2F then [j, u8 (j + 1)]
  else [j]

/-- One pass of the encoding loop together with the record of the indices
stored to so far. -/
def pathStepTraced (st : (List Nat × Nat) × List Nat) (c : Nat) :
    (List Nat × Nat) × List Nat :=
  (pathStep st.1 c, st.2 ++ pathStepStores st.1.2 c)

/-- Source lines 150-172 as `pathBuffer`, with the record of every index of
`_command` that is stored to: 0 to 4 by lines 153-157, then those of the
encoding loop. -/
def pathBufferTraced (junk : Nat → Nat) (command device : Nat) (path : List Nat)
    (len : Nat) : (List Nat × Nat) × List Nat :=
  let _len := pathLen path len
  let _command := uninit junk (DY_PATH_LEN + 4)
  let _command := _command.set 0 0xaa
  let _command := _command.set 1 command
  let _command := _command.set 2 (u8 (_len + 1))
  let _command := _command.set 3 (u8 device)
  let _command := _command.set 4 (path.getD 0 0)
  (List.range' 1 (len - 1)).foldl (fun st i => pathStepTraced st (path.getD i 0))
    ((_command, 5), [0, 1, 2, 3, 4])

/-- The encoded path as `byPathCommand` has it in its buffer when the encoding
loop ends: the bytes from index 4 up to the cursor. -/
def encodedPayload (junk : Nat → Nat) (command device : Nat) (path : List Nat) : List Nat :=
  ((pathBuffer junk command device path (u8 path.length)).1.take
    (pathBuffer junk command device path (u8 path.length)).2).drop 4

/-- A receive primitive that answers every request with a response that passes
`validateCrc` and carries the requested length as its payload byte: 5 bytes
for a request of 5, 6 bytes otherwise. -/
def lenProbe : Reader := fun _ len =>
  if len = 5 then ([0, 0, 0, 5, 5], 1) else ([0, 0, 0, 6, 0, 6], 1)

/-- The one-shot path the specification compares `combinationPlay` with
(section 4.6): the whole frame `[0xAA, 0x1B, 2*len]`, `sounds[0]`, ...,
`sounds[len-1]` is assembled in one buffer of `3 + 2*len` bytes and handed to
`sendCommand_nocrc`. -/
def combinationPlayOneShot (tx : Tx) (sounds : List (List Nat)) (len : Nat) : Tx :=
  let command := [0xaa, 0x1b, 2 * len] ++ (sounds.take len).flatten
  sendCommand_nocrc tx command (u8 (3 + 2 * len))

/-! ## Buffers and the wire -/

theorem u8_lt (n : Nat) : u8 n < 256 := Nat.mod_lt _ (by decide)

theorem u8_of_lt {n : Nat} (h : n < 256) : u8 n = n := Nat.mod_eq_of_lt h

theorem bytesAt_length (buffer : List Nat) (len : Nat) :
    (bytesAt buffer len).length = len := by
  simp [bytesAt]

theorem bytesAt_succ (buffer : List Nat) (len : Nat) :
    bytesAt buffer (len + 1) = bytesAt buffer len ++ [buffer.getD len 0] := by
  simp [bytesAt, List.range_succ]

/-- Within the buffer, the bytes at its start are its prefix. -/
theorem bytesAt_eq_take (buffer : List Nat) (len : Nat) (h : len ≤ buffer.length) :
    bytesAt buffer len = buffer.take len := by
  induction len with
  | zero => simp [bytesAt]
  | succ n ih =>
    have hn : n < buffer.length := h
    rw [bytesAt_succ, ih (Nat.le_of_lt hn), List.take_succ]
    simp [List.getD_eq_getElem?_getD, List.getElem?_eq_getElem hn]

theorem bytesAt_append_left (a b : List Nat) (len : Nat) (h : len ≤ a.length) :
    bytesAt (a ++ b) len = bytesAt a len := by
  rw [bytesAt_eq_take _ _ (by simp; omega), bytesAt_eq_take _ _ h,
    List.take_append_of_le_length h]

theorem bytesAt_head (buffer : List Nat) (len : Nat) (h : 0 < len) :
    (bytesAt buffer len).head? = some (buffer.getD 0 0) := by
  obtain ⟨n, rfl⟩ : ∃ n, len = n + 1 := ⟨len - 1, by omega⟩
  simp [bytesAt, List.range_succ_eq_map]

/-! ## Checksum -/

theorem foldl_u8_sum (g : Nat → Nat) (l : List Nat) (acc : Nat) (hacc : acc < 256) :
    l.foldl (fun sum i => u8 (sum + g i)) acc = (acc + (l.map g).sum) % 256 := by
  induction l generalizing acc with
  | nil => simp [Nat.mod_eq_of_lt hacc]
  | cons a t ih =>
    simp only [List.foldl_cons, List.map_cons, List.sum_cons]
    rw [ih _ (u8_lt _)]
    unfold u8
    omega

/-- The checksum is the sum of the bytes it reads, modulo 256. -/
theorem checksum_eq_sum (data : List Nat) (len : Nat) :
    checksum data len = (bytesAt data len).sum % 256 := by
  unfold checksum bytesAt
  rw [foldl_u8_sum (fun i => data.getD i 0) _ 0 (by decide)]
  simp

theorem checksum_lt (data : List Nat) (len : Nat) : checksum data len < 256 := by
  rw [checksum_eq_sum]
  exact Nat.mod_lt _ (by decide)

theorem checksum_append_left (a b : List Nat) (len : Nat) (h : len ≤ a.length) :
    checksum (a ++ b) len = checksum a len := by
  rw [checksum_eq_sum, checksum_eq_sum, bytesAt_append_left a b len h]

/-- The two writes of `sendCommand_nocrc`. -/
theorem sendCommand_nocrc_log (tx : Tx) (data : List Nat) (len : Nat) :
    sendCommand_nocrc tx data len = tx ++ [bytesAt data len, [checksum data len]] := by
  have h1 : bytesAt [checksum data len] 1 = [checksum data len] := rfl
  simp [sendCommand_nocrc, serialWrite, serialWrite_crc, HAL_UART_Transmit, h1]

/-- The two writes of `sendCommand`. -/
theorem sendCommand_log (tx : Tx) (data : List Nat) (len crc : Nat) :
    sendCommand tx data len crc = tx ++ [bytesAt data len, [crc]] := by
  have h1 : bytesAt [crc] 1 = [crc] := rfl
  simp [sendCommand, serialWrite, serialWrite_crc, HAL_UART_Transmit, h1]

/-- For a length from 1 to 255, `validateCrc` accepts exactly when the checksum
of the bytes before the last one is the last one. -/
theorem validateCrc_accepts (data : List Nat) (len : Nat) (h1 : 1 ≤ len) (h255 : len ≤ 255) :
    validateCrc data len = true ↔ checksum data (len - 1) = data.getD (len - 1) 0 := by
  have hu : u8 (len + 255) = len - 1 := by unfold u8; omega
  unfold validateCrc
  rw [hu, if_neg (by omega)]
  exact beq_iff_eq

/-! ## Claims on checksum, validation and sending -/

/-- C1: for every buffer `data` and every `len` in 0..255 not exceeding the
buffer size, `checksum data len` is the sum of the first `len` bytes modulo
256, and `checksum data 0` is 0. -/
theorem checksum_spec (data : List Nat) (len : Nat) (_hlen : len ≤ 255)
    (hsize : len ≤ data.length) :
    checksum data len = (data.take len).sum % 256 ∧ checksum data 0 = 0 := by
  refine ⟨?_, rfl⟩
  rw [checksum_eq_sum, bytesAt_eq_take data len hsize]

theorem checksum_spec_witness :
    checksum [200, 100, 7] 2 = ([200, 100, 7].take 2).sum % 256 ∧
      checksum [200, 100, 7] 0 = 0 :=
  checksum_spec [200, 100, 7] 2 (by decide) (by decide)

/-- C2: for every buffer `data` and every `len` with `1 <= len <= 255`,
`validateCrc data len` is true exactly when `data[len-1]` equals
`checksum data (len-1)`. -/
theorem validateCrc_iff (data : List Nat) (len : Nat) (h1 : 1 ≤ len) (h255 : len ≤ 255) :
    validateCrc data len = true ↔ data.getD (len - 1) 0 = checksum data (len - 1) := by
  have hu : u8 (len + 255) = len - 1 := by unfold u8; omega
  have h0 : len ≠ 0 := by omega
  simp only [validateCrc, hu, h0, if_false, beq_iff_eq]
  exact eq_comm

theorem validateCrc_iff_witness :
    validateCrc [170, 1, 171] 3 = true ↔
      [170, 1, 171].getD (3 - 1) 0 = checksum [170, 1, 171] (3 - 1) :=
  validateCrc_iff [170, 1, 171] 3 (by decide) (by decide)

/-- C3: for every buffer `data` and every `len <= 254` inside it, the bytes
written by `sendCommand_nocrc data len` are the `len` data bytes followed by
the computed checksum; `validateCrc` accepts them with length `len + 1`, and
their last byte is the sum of all bytes before it modulo 256. -/
theorem sendCommand_nocrc_valid (data : List Nat) (len : Nat) (hlen : len ≤ 254)
    (hsize : len ≤ data.length) :
    wire (sendCommand_nocrc [] data len) = data.take len ++ [checksum data len] ∧
      validateCrc (wire (sendCommand_nocrc [] data len)) (len + 1) = true ∧
      (wire (sendCommand_nocrc [] data len)).getLast? =
        some ((wire (sendCommand_nocrc [] data len)).dropLast.sum % 256) := by
  have hw : wire (sendCommand_nocrc [] data len) = data.take len ++ [checksum data len] := by
    rw [sendCommand_nocrc_log, bytesAt_eq_take data len hsize]
    simp [wire]
  have htl : (data.take len).length = len := by simp [hsize]
  refine ⟨hw, ?_, ?_⟩
  · rw [hw, validateCrc_accepts _ _ (by omega) (by omega)]
    have hidx : len + 1 - 1 = len := by omega
    rw [hidx, checksum_append_left _ _ _ (by omega)]
    rw [List.getD_eq_getElem?_getD, List.getElem?_append_right (by omega)]
    simp [htl, checksum_eq_sum, bytesAt_eq_take, hsize, List.take_take]
  · rw [hw, List.getLast?_concat, List.dropLast_concat, checksum_eq_sum,
      bytesAt_eq_take data len hsize]

theorem sendCommand_nocrc_valid_witness :
    wire (sendCommand_nocrc [] [170, 19, 1, 20] 4) =
        [170, 19, 1, 20].take 4 ++ [checksum [170, 19, 1, 20] 4] ∧
      validateCrc (wire (sendCommand_nocrc [] [170, 19, 1, 20] 4)) (4 + 1) = true ∧
      (wire (sendCommand_nocrc [] [170, 19, 1, 20] 4)).getLast? =
        some ((wire (sendCommand_nocrc [] [170, 19, 1, 20] 4)).dropLast.sum % 256) :=
  sendCommand_nocrc_valid [170, 19, 1, 20] 4 (by decide) (by decide)

/-! ## Framing of everything that is transmitted -/

theorem songPath_chars : songPath = "/SONGS1/FILE1.MP3".toList.map Char.toNat := by decide

theorem songPathEncoded_chars :
    songPathEncoded = "/SONGS1*/FILE1*MP3".toList.map Char.toNat := by decide

theorem framed_concat (body : List Nat) (crc : Nat) (hhead : body.head? = some 0xAA)
    (hcrc : crc = body.sum % 256) : framed (body ++ [crc]) := by
  refine Or.inr ⟨?_, ?_⟩
  · rw [List.head?_append, hhead]; rfl
  · rw [List.getLast?_concat, List.dropLast_concat, hcrc]

theorem framed_sendCommand_nocrc (data : List Nat) (len : Nat) (hlen : 0 < len)
    (hhead : data.getD 0 0 = 0xAA) : framed (wire (sendCommand_nocrc [] data len)) := by
  have hw : wire (sendCommand_nocrc [] data len) = bytesAt data len ++ [checksum data len] := by
    rw [sendCommand_nocrc_log]; simp [wire]
  rw [hw]
  exact framed_concat _ _ (by rw [bytesAt_head _ _ hlen, hhead]) (checksum_eq_sum data len)

theorem getD_zero_set (l : List Nat) (j a : Nat) (hj : j ≠ 0) :
    (l.set j a).getD 0 0 = l.getD 0 0 := by
  simp [List.getD_eq_getElem?_getD, List.getElem?_set, hj]

/-- One pass of the encoding loop leaves byte 0 and the size of the buffer as
they are and moves the cursor forward by one or two. -/
theorem pathStep_inv (st : List Nat × Nat) (c : Nat) (h5 : 5 ≤ st.2) (hj : st.2 ≤ 253) :
    (pathStep st c).1.getD 0 0 = st.1.getD 0 0 ∧
      (pathStep st c).1.length = st.1.length ∧
      st.2 < (pathStep st c).2 ∧ (pathStep st c).2 ≤ st.2 + 2 := by
  have e1 : u8 (st.2 + 1) = st.2 + 1 := u8_of_lt (by omega)
  have e2 : u8 (st.2 + 1 + 1) = st.2 + 2 := u8_of_lt (by omega)
  unfold pathStep
  split
  · simp only [e1, List.length_set]
    exact ⟨getD_zero_set _ _ _ (by omega), trivial, by omega, by omega⟩
  · split
    · simp only [e1, e2, List.length_set]
      refine ⟨?_, trivial, by omega, by omega⟩
      rw [getD_zero_set _ _ _ (by omega), getD_zero_set _ _ _ (by omega)]
    · simp only [e1, List.length_set]
      exact ⟨getD_zero_set _ _ _ (by omega), trivial, by omega, by omega⟩

theorem pathFold_inv (cs : List Nat) (st : List Nat × Nat) (h5 : 5 ≤ st.2)
    (hj : st.2 + 2 * cs.length ≤ 255) :
    (cs.foldl pathStep st).1.getD 0 0 = st.1.getD 0 0 ∧
      (cs.foldl pathStep st).1.length = st.1.length ∧
      5 ≤ (cs.foldl pathStep st).2 := by
  induction cs generalizing st with
  | nil => exact ⟨rfl, rfl, h5⟩
  | cons c t ih =>
    simp only [List.length_cons] at hj
    obtain ⟨a, b, c1, c2⟩ := pathStep_inv st c h5 (by omega)
    obtain ⟨a2, b2, c3⟩ := ih (pathStep st c) (by omega) (by omega)
    simp only [List.foldl_cons]
    exact ⟨a2.trans a, b2.trans b, c3⟩

theorem length_le_expandedLength (path : List Nat) : path.length ≤ expandedLength path :=
  Nat.le_add_right _ _

/-- The command buffer of a path of at most 125 characters starts with 0xAA. -/
theorem pathBuffer_head (junk : Nat → Nat) (command device : Nat) (path : List Nat)
    (len : Nat) (hlen : len ≤ 125) :
    (pathBuffer junk command device path len).1.getD 0 0 = 0xaa := by
  unfold pathBuffer
  simp only []
  rw [← List.foldl_map (fun i => path.getD i 0) pathStep]
  have h := pathFold_inv ((List.range' 1 (len - 1)).map fun i => path.getD i 0)
    (((((((uninit junk (DY_PATH_LEN + 4)).set 0 0xaa).set 1 command).set 2
      (u8 (pathLen path len + 1))).set 3 (u8 device)).set 4 (path.getD 0 0)), 5)
    (Nat.le_refl 5) (by simp; omega)
  rw [h.1]
  simp [List.getD_eq_getElem?_getD, List.getElem?_set, uninit, DY_PATH_LEN]

theorem framed_byPathCommand (junk : Nat → Nat) (command device : Nat) (path : List Nat)
    (h1 : 1 ≤ path.length) (h40 : expandedLength path ≤ DY_PATH_LEN) :
    framed (wire (byPathCommand [] junk command device path)) := by
  have hle := length_le_expandedLength path
  have hl : path.length ≤ 40 := Nat.le_trans hle h40
  have hu : u8 path.length = path.length := u8_of_lt (by omega)
  have hu4 : u8 (path.length + 4) = path.length + 4 := u8_of_lt (by omega)
  unfold byPathCommand
  simp only [hu, hu4]
  rw [if_neg (by omega)]
  exact framed_sendCommand_nocrc _ _ (by omega) (pathBuffer_head _ _ _ _ _ (by omega))

/-- The tokens `sounds[0]`, ..., `sounds[len-1]` as they are transmitted, two
bytes each. -/
theorem combinationFold (sounds : List (List Nat)) (l : List Nat) (crc : Nat) (tx : Tx)
    (hcrc : crc < 256) :
    (l.foldl (combinationStep sounds) (crc, tx)).2 =
        tx ++ l.map (fun i => bytesAt (sounds.getD i []) 2) ∧
      (l.foldl (combinationStep sounds) (crc, tx)).1 =
        (crc + ((l.map fun i => bytesAt (sounds.getD i []) 2).flatten).sum) % 256 := by
  induction l generalizing crc tx with
  | nil => simp [Nat.mod_eq_of_lt hcrc]
  | cons i t ih =>
    obtain ⟨a, b⟩ := ih (u8 (crc + checksum (sounds.getD i []) 2))
      (serialWrite tx (sounds.getD i []) 2) (u8_lt _)
    simp only [List.foldl_cons, combinationStep, List.map_cons, List.flatten_cons,
      List.sum_append]
    refine ⟨?_, ?_⟩
    · rw [a]; simp [serialWrite, HAL_UART_Transmit]
    · rw [b, checksum_eq_sum]
      unfold u8
      omega

/-- The transmit log of `combinationPlay` for a playlist that is not empty:
the header, one write per token, the checksum of all of it. -/
theorem combinationPlay_log (sounds : List (List Nat)) (len : Nat) (hlen : 1 ≤ len) :
    combinationPlay [] sounds len =
      [[0xaa, 0x1b, u8 (len * 2)]] ++
        (List.range len).map (fun i => bytesAt (sounds.getD i []) 2) ++
        [[(0xaa + 0x1b + u8 (len * 2) +
          (((List.range len).map fun i => bytesAt (sounds.getD i []) 2).flatten).sum)
            % 256]] := by
  have hx : ∀ x : Nat, checksum [0xaa, 0x1b, x] 3 = (0xaa + 0x1b + x) % 256 := by
    intro x
    rw [checksum_eq_sum]
    simp [bytesAt, List.range_succ]
    omega
  have hb : ∀ x : Nat, bytesAt [0xaa, 0x1b, x] 3 = [0xaa, 0x1b, x] := fun _ => rfl
  have h1 : ∀ x : Nat, bytesAt [x] 1 = [x] := fun _ => rfl
  unfold combinationPlay
  rw [if_neg (by omega)]
  simp only [List.set_cons_succ, List.set_cons_zero, hx]
  obtain ⟨a, b⟩ := combinationFold sounds (List.range len) ((0xaa + 0x1b + u8 (len * 2)) % 256)
    [[0xaa, 0x1b, u8 (len * 2)]] (Nat.mod_lt _ (by decide))
  simp only [serialWrite_crc, HAL_UART_Transmit, h1, serialWrite, hb, List.nil_append]
  rw [a, b]
  simp only [List.append_assoc, List.cons_append, List.nil_append, List.cons.injEq,
    true_and, List.append_cancel_left_eq, and_true]
  omega

theorem framed_combinationPlay (sounds : List (List Nat)) (len : Nat) :
    framed (wire (combinationPlay [] sounds len)) := by
  rcases Nat.eq_zero_or_pos len with h0 | hpos
  · subst h0
    exact Or.inl rfl
  · rw [combinationPlay_log sounds len hpos]
    have hw : ∀ (toks : Tx) (c : Nat),
        wire ([[0xaa, 0x1b, u8 (len * 2)]] ++ toks ++ [[c]]) =
          ([0xaa, 0x1b, u8 (len * 2)] ++ toks.flatten) ++ [c] := by
      intro toks c
      simp [wire]
    rw [hw]
    refine framed_concat _ _ rfl ?_
    simp only [List.sum_append, List.sum_cons, List.sum_nil]
    omega

theorem query_log {α : Type} (c : Bool) (a b : α) (tx : Tx) :
    (if c = true then (a, tx) else (b, tx)).2 = tx := by
  cases c <;> rfl

theorem framed_fixed (data : List Nat) (crc : Nat) (hhead : data.getD 0 0 = 0xAA)
    (hcrc : crc = (bytesAt data 3).sum % 256) :
    framed (wire (sendCommand [] data 3 crc)) := by
  have hw : wire (sendCommand [] data 3 crc) = bytesAt data 3 ++ [crc] := by
    rw [sendCommand_log]; simp [wire]
  rw [hw]
  exact framed_concat _ _ (by rw [bytesAt_head _ _ (by decide), hhead]) hcrc

/-- C4: whatever operation of the driver is called, with a path that is not
empty and has an expanded length of at most 40 and with playlist tokens of two
bytes, the bytes it writes to the transport, taken together, are none at all
or start with 0xAA and end with the sum of all bytes before the last one,
modulo 256. -/
theorem transmitted_framed (op : Op) (h : admissible op) : framed (wire (run op)) := by
  cases op with
  | checkPlayState shortEnums read junk =>
    simp only [run, checkPlayState, query_log]
    exact framed_fixed _ _ rfl rfl
  | play => exact framed_fixed _ _ rfl rfl
  | pause => exact framed_fixed _ _ rfl rfl
  | stop => exact framed_fixed _ _ rfl rfl
  | previous => exact framed_fixed _ _ rfl rfl
  | next => exact framed_fixed _ _ rfl rfl
  | playSpecified number => exact framed_sendCommand_nocrc _ _ (by decide) rfl
  | playSpecifiedDevicePath junk device path =>
    exact framed_byPathCommand junk 0x08 device path h.1 h.2
  | getPlayingDevice read junk =>
    simp only [run, getPlayingDevice, query_log]
    exact framed_fixed _ _ rfl rfl
  | setPlayingDevice device => exact framed_sendCommand_nocrc _ _ (by decide) rfl
  | getSoundCount read junk =>
    simp only [run, getSoundCount, query_log]
    exact framed_fixed _ _ rfl rfl
  | getPlayingSound read junk =>
    simp only [run, getPlayingSound, query_log]
    exact framed_fixed _ _ rfl rfl
  | previousDir song =>
    simp only [run, previousDir]
    split
    · exact framed_fixed _ _ rfl rfl
    · exact framed_fixed _ _ rfl rfl
  | getFirstInDir read junk =>
    simp only [run, getFirstInDir, query_log]
    exact framed_fixed _ _ rfl rfl
  | getSoundCountDir read junk =>
    simp only [run, getSoundCountDir, query_log]
    exact framed_fixed _ _ rfl rfl
  | setVolume volume => exact framed_sendCommand_nocrc _ _ (by decide) rfl
  | volumeIncrease => exact framed_fixed _ _ rfl rfl
  | volumeDecrease => exact framed_fixed _ _ rfl rfl
  | interludeSpecified device number => exact framed_sendCommand_nocrc _ _ (by decide) rfl
  | interludeSpecifiedDevicePath junk device path =>
    exact framed_byPathCommand junk 0x17 device path h.1 h.2
  | stopInterlude => exact framed_fixed _ _ rfl rfl
  | setCycleMode mode => exact framed_sendCommand_nocrc _ _ (by decide) rfl
  | setCycleTimes cycles => exact framed_sendCommand_nocrc _ _ (by decide) rfl
  | setEq eq => exact framed_sendCommand_nocrc _ _ (by decide) rfl
  | select number => exact framed_sendCommand_nocrc _ _ (by decide) rfl
  | combinationPlay sounds len => exact framed_combinationPlay sounds len
  | endCombinationPlay => exact framed_fixed _ _ rfl rfl
  | getCycleMode mode => exact framed_sendCommand_nocrc _ _ (by decide) rfl

theorem transmitted_framed_witness :
    admissible (Op.playSpecifiedDevicePath (fun _ => 0) Usb songPath) ∧
      framed (wire (run (Op.playSpecifiedDevicePath (fun _ => 0) Usb songPath))) :=
  ⟨⟨by decide, by decide⟩, transmitted_framed _ ⟨by decide, by decide⟩⟩

/-! ## Individual frames -/

theorem shiftRight8_lt {n : Nat} (h : n < 65536) : n >>> 8 < 256 := by
  rw [Nat.shiftRight_eq_div_pow]
  omega

theorem and255_lt (n : Nat) : n &&& 0xff < 256 := by
  have h : n &&& 0xff = n % 2 ^ 8 := Nat.and_pow_two_sub_one_eq_mod n 8
  rw [h]
  omega

/-- C5: for every 16-bit number `n`, `playSpecified n` transmits the bytes
`[0xAA, 0x07, 0x02, n >> 8, n & 0xFF]` followed by one checksum byte equal to
`(0xAA + 0x07 + 0x02 + (n >> 8) + (n & 0xFF)) mod 256`; for `n = 42` these are
`[0xAA, 0x07, 0x02, 0x00, 0x2A]` followed by `0xDD`. -/
theorem playSpecified_frame (n : Nat) (hn : n < 65536) :
    wire (playSpecified [] n) =
        [0xAA, 0x07, 0x02, n >>> 8, n &&& 0xFF] ++
          [(0xAA + 0x07 + 0x02 + (n >>> 8) + (n &&& 0xFF)) % 256] ∧
      wire (playSpecified [] 42) = [0xAA, 0x07, 0x02, 0x00, 0x2A] ++ [0xDD] := by
  refine ⟨?_, by decide⟩
  have hc : ∀ a b : Nat,
      (((memcpy (List.replicate 5 0) (row SPECIFIEDSONG_CMD) LENGTHOF_COMMANDS).set 3 a).set
        4 b) = [0xAA, 0x07, 0x02, a, b] := fun _ _ => rfl
  have hb : ∀ a b : Nat, bytesAt [0xAA, 0x07, 0x02, a, b] 5 = [0xAA, 0x07, 0x02, a, b] :=
    fun _ _ => rfl
  unfold playSpecified
  simp only [hc, sendCommand_nocrc_log, checksum_eq_sum, hb, u8_of_lt (shiftRight8_lt hn),
    u8_of_lt (and255_lt n)]
  simp only [wire, List.nil_append, List.flatten_cons, List.flatten_nil, List.append_nil,
    List.sum_cons, List.sum_nil, List.cons_append, List.cons.injEq, true_and, and_true]
  omega

theorem playSpecified_frame_witness :
    wire (playSpecified [] 0x1234) =
        [0xAA, 0x07, 0x02, 0x1234 >>> 8, 0x1234 &&& 0xFF] ++
          [(0xAA + 0x07 + 0x02 + (0x1234 >>> 8) + (0x1234 &&& 0xFF)) % 256] ∧
      wire (playSpecified [] 42) = [0xAA, 0x07, 0x02, 0x00, 0x2A] ++ [0xDD] :=
  playSpecified_frame 0x1234 (by decide)

/-! ## Path commands on the wire -/

/-- C6, at `/SONGS1/FILE1.MP3` on `Usb`: the command buffer holds the 4-byte
header and the complete encoded path `/SONGS1*/FILE1*MP3`, 22 bytes, and the
header announces 19 parameter bytes; the bytes transmitted before the checksum
are only the first 21 of them, so the body on the wire is `/SONGS1*/FILE1*MP`,
short of its last character, and the count is `4 + strlen(path)` where the
claim has `4 + strlen(path) + 1`. -/
theorem byPathCommand_songPath_cut (junk : Nat → Nat) :
    (pathBuffer junk 0x08 Usb songPath 17).1.take 22 =
        [0xAA, 0x08, 19, 0x00] ++ songPathEncoded ∧
      playSpecifiedDevicePath [] junk Usb songPath =
        [[0xAA, 0x08, 19, 0x00] ++ songPathEncoded.dropLast,
          [checksum ([0xAA, 0x08, 19, 0x00] ++ songPathEncoded.dropLast) 21]] ∧
      ([0xAA, 0x08, 19, 0x00] ++ songPathEncoded.dropLast).length = 4 + songPath.length ∧
      4 + songPath.length ≠ 4 + songPath.length + (songPath.drop 1).count 0x2F ∧
      songPathEncoded.dropLast ≠ songPathEncoded := by
  refine ⟨?_, ?_, by decide, by decide, by decide⟩
  · simp [pathBuffer, pathLen, pathStep, uninit, songPath, songPathEncoded, List.range', u8,
      toupper, DY_PATH_LEN, Usb, List.range_succ]
  · simp [playSpecifiedDevicePath, byPathCommand, sendCommand_nocrc_log, bytesAt, checksum,
      pathBuffer, pathLen, pathStep, uninit, songPath, songPathEncoded, List.range', u8,
      toupper, DY_PATH_LEN, Usb, List.range_succ]

/-! ## Responses -/

/-- A response of exactly the requested size replaces the whole buffer. -/
theorem serialRead_full (rx : List Nat) (junk : Nat → Nat) (n : Nat) (h : rx.length = n) :
    serialRead rx (uninit junk n) n = (rx, 1) := by
  simp [serialRead, HAL_UART_Receive, uninit, ← h]

theorem getResponse_full (rx : List Nat) (junk : Nat → Nat) (n : Nat) (h : rx.length = n) :
    getResponse (serialRead rx) (uninit junk n) n = (rx, validateCrc rx n) := by
  unfold getResponse
  simp only [serialRead_full rx junk n h]
  cases validateCrc rx n <;> simp

theorem be16_eq (buffer : List Nat) (h3 : buffer.getD 3 0 < 256) (h4 : buffer.getD 4 0 < 256) :
    be16 buffer = 256 * buffer.getD 3 0 + buffer.getD 4 0 := by
  unfold be16 u16
  have h : buffer.getD 4 0 < 2 ^ 8 := h4
  rw [Nat.shiftLeft_eq, Nat.mul_comm, ← Nat.mul_add_lt_is_or h]
  omega

theorem getD_lt_of_forall (l : List Nat) (i : Nat) (h : ∀ b ∈ l, b < 256) :
    l.getD i 0 < 256 := by
  rw [List.getD_eq_getElem?_getD]
  rcases Nat.lt_or_ge i l.length with hi | hi
  · rw [List.getElem?_eq_getElem hi]
    exact h _ (List.getElem_mem hi)
  · rw [List.getElem?_eq_none hi]
    decide

theorem count_value (read : Reader) (junk : Nat → Nat) (row3 : List Nat) (crc : Nat) :
    (if (getResponse read (uninit junk 6) 6).2 = true then
        (be16 (getResponse read (uninit junk 6) 6).1, sendCommand [] row3 3 crc)
      else (0, sendCommand [] row3 3 crc)).1 =
      if (getResponse read (uninit junk 6) 6).2 = true then
        be16 (getResponse read (uninit junk 6) 6).1
      else 0 := by
  split <;> rfl

/-- C8: for every 6-byte response that passes `validateCrc`, each of
`getSoundCount`, `getPlayingSound`, `getFirstInDir` and `getSoundCountDir`
returns `256 * buffer[3] + buffer[4]`; with `buffer[3] = 0x01` and
`buffer[4] = 0x2C` that is 300. -/
theorem count_queries_response (junk : Nat → Nat) (rx : List Nat) (hlen : rx.length = 6)
    (hbytes : ∀ b ∈ rx, b < 256) (hcrc : validateCrc rx 6 = true) :
    (getSoundCount (serialRead rx) [] junk).1 = 256 * rx.getD 3 0 + rx.getD 4 0 ∧
      (getPlayingSound (serialRead rx) [] junk).1 = 256 * rx.getD 3 0 + rx.getD 4 0 ∧
      (getFirstInDir (serialRead rx) [] junk).1 = 256 * rx.getD 3 0 + rx.getD 4 0 ∧
      (getSoundCountDir (serialRead rx) [] junk).1 = 256 * rx.getD 3 0 + rx.getD 4 0 ∧
      (rx.getD 3 0 = 0x01 → rx.getD 4 0 = 0x2C →
        (getSoundCount (serialRead rx) [] junk).1 = 300 ∧
        (getPlayingSound (serialRead rx) [] junk).1 = 300 ∧
        (getFirstInDir (serialRead rx) [] junk).1 = 300 ∧
        (getSoundCountDir (serialRead rx) [] junk).1 = 300) := by
  have hbe := be16_eq rx (getD_lt_of_forall rx 3 hbytes) (getD_lt_of_forall rx 4 hbytes)
  have hg := getResponse_full rx junk 6 hlen
  have a : (getSoundCount (serialRead rx) [] junk).1 = 256 * rx.getD 3 0 + rx.getD 4 0 := by
    unfold getSoundCount
    simp only [LENGTHOF_COMMANDS, count_value, hg, hcrc, if_true, hbe]
  have b : (getPlayingSound (serialRead rx) [] junk).1 = 256 * rx.getD 3 0 + rx.getD 4 0 := by
    unfold getPlayingSound
    simp only [LENGTHOF_COMMANDS, count_value, hg, hcrc, if_true, hbe]
  have c : (getFirstInDir (serialRead rx) [] junk).1 = 256 * rx.getD 3 0 + rx.getD 4 0 := by
    unfold getFirstInDir
    simp only [LENGTHOF_COMMANDS, count_value, hg, hcrc, if_true, hbe]
  have d : (getSoundCountDir (serialRead rx) [] junk).1 = 256 * rx.getD 3 0 + rx.getD 4 0 := by
    unfold getSoundCountDir
    simp only [LENGTHOF_COMMANDS, count_value, hg, hcrc, if_true, hbe]
  refine ⟨a, b, c, d, fun h3 h4 => ?_⟩
  rw [a, b, c, d, h3, h4]
  decide

theorem count_queries_response_witness :
    (getSoundCount (serialRead [0xAA, 0x0C, 0x02, 0x01, 0x2C, 0xE5]) [] (fun _ => 0)).1 = 300 ∧
      (getPlayingSound (serialRead [0xAA, 0x0C, 0x02, 0x01, 0x2C, 0xE5]) [] (fun _ => 0)).1
        = 300 ∧
      (getFirstInDir (serialRead [0xAA, 0x0C, 0x02, 0x01, 0x2C, 0xE5]) [] (fun _ => 0)).1
        = 300 ∧
      (getSoundCountDir (serialRead [0xAA, 0x0C, 0x02, 0x01, 0x2C, 0xE5]) [] (fun _ => 0)).1
        = 300 :=
  (count_queries_response (fun _ => 0) [0xAA, 0x0C, 0x02, 0x01, 0x2C, 0xE5] rfl
    (by decide) (by decide)).2.2.2.2 rfl rfl

theorem getResponse_rejects (read : Reader) (buffer : List Nat) (len : Nat)
    (h : (read buffer len).2 = 0 ∨ validateCrc (read buffer len).1 len = false) :
    (getResponse read buffer len).2 = false := by
  unfold getResponse
  rcases h with h | h
  · simp [h]
  · simp only [h]
    split <;> simp

/-- C9: for every query operation and every receive primitive, when the read
returns the count 0 or the buffer it filled fails `validateCrc`, the operation
returns its failure value: `Fail` for `checkPlayState`, 0 for `getSoundCount`,
`getPlayingSound`, `getFirstInDir` and `getSoundCountDir` (which read 6 bytes),
and `Failed`, which is 0xFE, for `getPlayingDevice` (which reads 5 bytes). -/
theorem query_failure_value (shortEnums : Bool) (read : Reader) (junk : Nat → Nat) :
    ((read (uninit junk 6) 6).2 = 0 ∨ validateCrc (read (uninit junk 6) 6).1 6 = false →
        (checkPlayState shortEnums read [] junk).1 = Fail ∧
        (getSoundCount read [] junk).1 = 0 ∧
        (getPlayingSound read [] junk).1 = 0 ∧
        (getFirstInDir read [] junk).1 = 0 ∧
        (getSoundCountDir read [] junk).1 = 0) ∧
      ((read (uninit junk 5) 5).2 = 0 ∨ validateCrc (read (uninit junk 5) 5).1 5 = false →
        (getPlayingDevice read [] junk).1 = Failed ∧ Failed = 0xFE) := by
  refine ⟨fun h => ?_, fun h => ?_⟩
  · have hr := getResponse_rejects read (uninit junk 6) 6 h
    simp [checkPlayState, getSoundCount, getPlayingSound, getFirstInDir, getSoundCountDir, hr]
  · have hr := getResponse_rejects read (uninit junk 5) 5 h
    simp [getPlayingDevice, hr, Failed]

theorem query_failure_value_witness :
    ((checkPlayState true (fun b _ => (b, 0)) [] (fun _ => 0)).1 = Fail ∧
        (getSoundCount (fun b _ => (b, 0)) [] (fun _ => 0)).1 = 0 ∧
        (getPlayingSound (fun b _ => (b, 0)) [] (fun _ => 0)).1 = 0 ∧
        (getFirstInDir (fun b _ => (b, 0)) [] (fun _ => 0)).1 = 0 ∧
        (getSoundCountDir (fun b _ => (b, 0)) [] (fun _ => 0)).1 = 0) ∧
      ((getPlayingDevice (serialRead [0xAA, 0x0A, 0x01, 0x01, 0x00]) [] (fun _ => 0)).1
          = Failed ∧ Failed = 0xFE) :=
  ⟨(query_failure_value true (fun b _ => (b, 0)) (fun _ => 0)).1 (Or.inl rfl),
    (query_failure_value true (serialRead [0xAA, 0x0A, 0x01, 0x01, 0x00]) (fun _ => 0)).2
      (Or.inr (by decide))⟩

theorem device_value (read : Reader) (junk : Nat → Nat) (tx : Tx) :
    (if (getResponse read (uninit junk 5) 5).2 = true then
        ((getResponse read (uninit junk 5) 5).1.getD 3 0, tx)
      else (Failed, tx)).1 =
      if (getResponse read (uninit junk 5) 5).2 = true then
        (getResponse read (uninit junk 5) 5).1.getD 3 0
      else Failed := by
  split <;> rfl

/-- C10: for every 5-byte response that passes `validateCrc`,
`getPlayingDevice` returns the device value `buffer[3]` (0 is `Usb`, 1 is `Sd`,
2 is `Flash`, 0xFF is `NoDevice`), and what it has transmitted is the query
frame `[0xAA, 0x0A, 0x00, 0xB4]`. -/
theorem getPlayingDevice_response (junk : Nat → Nat) (rx : List Nat) (hlen : rx.length = 5)
    (hcrc : validateCrc rx 5 = true) :
    (getPlayingDevice (serialRead rx) [] junk).1 = rx.getD 3 0 ∧
      (rx.getD 3 0 = 0 → (getPlayingDevice (serialRead rx) [] junk).1 = Usb) ∧
      (rx.getD 3 0 = 1 → (getPlayingDevice (serialRead rx) [] junk).1 = Sd) ∧
      (rx.getD 3 0 = 2 → (getPlayingDevice (serialRead rx) [] junk).1 = Flash) ∧
      (rx.getD 3 0 = 0xFF → (getPlayingDevice (serialRead rx) [] junk).1 = NoDevice) ∧
      wire (getPlayingDevice (serialRead rx) [] junk).2 = [0xAA, 0x0A, 0x00, 0xB4] := by
  have hg := getResponse_full rx junk 5 hlen
  have a : (getPlayingDevice (serialRead rx) [] junk).1 = rx.getD 3 0 := by
    unfold getPlayingDevice
    simp only [device_value, hg, hcrc, if_true]
  have w : wire (getPlayingDevice (serialRead rx) [] junk).2 = [0xAA, 0x0A, 0x00, 0xB4] := by
    unfold getPlayingDevice
    simp only [query_log]
    rfl
  refine ⟨a, ?_, ?_, ?_, ?_, w⟩ <;> intro h <;> rw [a, h] <;> rfl

theorem getPlayingDevice_response_witness :
    (getPlayingDevice (serialRead [0xAA, 0x0A, 0x01, 0x01, 0xB6]) [] (fun _ => 0)).1 = Sd ∧
      wire (getPlayingDevice (serialRead [0xAA, 0x0A, 0x01, 0x01, 0xB6]) [] (fun _ => 0)).2
        = [0xAA, 0x0A, 0x00, 0xB4] :=
  ⟨(getPlayingDevice_response (fun _ => 0) [0xAA, 0x0A, 0x01, 0x01, 0xB6] rfl
      (by decide)).2.2.1 rfl,
    (getPlayingDevice_response (fun _ => 0) [0xAA, 0x0A, 0x01, 0x01, 0xB6] rfl
      (by decide)).2.2.2.2.2⟩

/-! ## Combination play, next and interlude -/

theorem bytesAt_full (l : List Nat) : bytesAt l l.length = l := by
  rw [bytesAt_eq_take l l.length (Nat.le_refl _), List.take_length]

/-- The first `len` tokens of a playlist of two-byte tokens, as the token loop
reads them. -/
theorem tokens_eq_take (sounds : List (List Nat)) (len : Nat) (hlen : len ≤ sounds.length)
    (htok : ∀ t ∈ sounds, t.length = 2) :
    (List.range len).map (fun i => bytesAt (sounds.getD i []) 2) = sounds.take len := by
  induction len with
  | zero => simp
  | succ n ih =>
    have hn : n < sounds.length := hlen
    have h2 : (sounds[n]).length = 2 := htok _ (List.getElem_mem hn)
    rw [List.range_succ, List.map_append, ih (Nat.le_of_lt hn), List.take_succ]
    have hb : bytesAt sounds[n] 2 = sounds[n] := by
      rw [← h2]; exact bytesAt_full _
    simp [List.getD_eq_getElem?_getD, List.getElem?_eq_getElem hn, hb]

theorem flatten_length_two (toks : List (List Nat)) (htok : ∀ t ∈ toks, t.length = 2) :
    toks.flatten.length = 2 * toks.length := by
  induction toks with
  | nil => rfl
  | cons t ts ih =>
    have h2 : t.length = 2 := htok t (List.mem_cons_self _ _)
    have ih2 := ih fun x hx => htok x (List.mem_cons_of_mem _ hx)
    simp only [List.flatten_cons, List.length_append, List.length_cons, h2, ih2]
    omega

/-- C11: for every `len` from 1 to 127 and every array of `len` two-byte
tokens, `combinationPlay` transmits the header `[0xAA, 0x1B, 2*len]`, then the
two bytes of each token in array order, then one checksum byte equal to the
sum of the `3 + 2*len` bytes before it modulo 256; for `"01"`, `"02"`, `"03"`
the header is `[0xAA, 0x1B, 0x06]` and nine bytes precede the checksum. -/
theorem combinationPlay_frame (sounds : List (List Nat)) (len : Nat) (h1 : 1 ≤ len)
    (h127 : len ≤ 127) (hlen : len = sounds.length) (htok : ∀ t ∈ sounds, t.length = 2) :
    wire (combinationPlay [] sounds len) =
        ([0xAA, 0x1B, 2 * len] ++ sounds.flatten) ++
          [([0xAA, 0x1B, 2 * len] ++ sounds.flatten).sum % 256] ∧
      ([0xAA, 0x1B, 2 * len] ++ sounds.flatten).length = 3 + 2 * len ∧
      wire (combinationPlay [] sounds123 3) =
        ([0xAA, 0x1B, 0x06] ++ [0x30, 0x31, 0x30, 0x32, 0x30, 0x33]) ++
          [([0xAA, 0x1B, 0x06] ++ [0x30, 0x31, 0x30, 0x32, 0x30, 0x33]).sum % 256] := by
  have hu : u8 (len * 2) = 2 * len := by unfold u8; omega
  have ht : (List.range len).map (fun i => bytesAt (sounds.getD i []) 2) = sounds := by
    rw [tokens_eq_take sounds len (Nat.le_of_eq hlen) htok, hlen, List.take_length]
  refine ⟨?_, ?_, by decide⟩
  · rw [combinationPlay_log sounds len h1, ht, hu]
    simp only [wire, List.flatten_append, List.flatten_cons, List.flatten_nil, List.append_nil,
      List.sum_append, List.sum_cons, List.sum_nil, List.append_assoc, List.cons_append,
      List.nil_append]
    have hs : (170 + 27 + 2 * len + sounds.flatten.sum) % 256 =
        (170 + (27 + (2 * len + sounds.flatten.sum))) % 256 := by omega
    rw [hs]
  · have hf := flatten_length_two sounds htok
    simp only [List.length_append, List.length_cons, List.length_nil, hf]
    omega

theorem combinationPlay_frame_witness :
    wire (combinationPlay [] sounds123 3) =
        ([0xAA, 0x1B, 2 * 3] ++ sounds123.flatten) ++
          [([0xAA, 0x1B, 2 * 3] ++ sounds123.flatten).sum % 256] ∧
      ([0xAA, 0x1B, 2 * 3] ++ sounds123.flatten).length = 3 + 2 * 3 :=
  ⟨(combinationPlay_frame sounds123 3 (by decide) (by decide) rfl (by decide)).1,
    (combinationPlay_frame sounds123 3 (by decide) (by decide) rfl (by decide)).2.1⟩

/-- C12, as the code has it: `next` transmits the row `PREV_CMD` of the command
table with its checksum, `[0xAA, 0x05, 0x00, 0xAF]`, the frame of `previous`;
the row `NEXT_CMD`, `[0xAA, 0x06, 0x00]` with checksum `0xB0`, which the claim
and the comment in the body of `next` name, is not what goes out. -/
theorem next_sends_previous_row :
    wire (next []) = [0xAA, 0x05, 0x00, 0xAF] ∧
      wire (next []) ≠ [0xAA, 0x06, 0x00, 0xB0] ∧
      row NEXT_CMD = [0xAA, 0x06, 0x00, 0xB0] ∧
      wire (next []) = wire (previous []) := by
  decide

/-- C13, as the code has it: for every device and number `interludeSpecified`
transmits a frame whose opcode byte is `0x0B`, the opcode of the row
`SWTICHDRIVE_CMD`, and not `0x16`, the opcode of the row `SPECSONGINTER_CMD`
that the claim names; for `Usb` and number 1 the frame is
`[0xAA, 0x0B, 0x03, 0x00, 0x00, 0x01]` with checksum `0xB9`. -/
theorem interludeSpecified_opcode (device number : Nat) :
    (wire (interludeSpecified [] device number)).getD 1 0 = 0x0B ∧
      (row SWTICHDRIVE_CMD).getD 1 0 = 0x0B ∧
      (row SPECSONGINTER_CMD).getD 1 0 = 0x16 ∧
      wire (interludeSpecified [] Usb 1) = [0xAA, 0x0B, 0x03, 0x00, 0x00, 0x01, 0xB9] ∧
      wire (interludeSpecified [] Usb 1) ≠
        [0xAA, 0x16, 0x03, 0x00, 0x00, 0x01] ++
          [checksum [0xAA, 0x16, 0x03, 0x00, 0x00, 0x01] 6] := by
  refine ⟨?_, by decide, by decide, by decide, by decide⟩
  have hb : ∀ a b c : Nat,
      bytesAt [0xaa, 0x0b, 0x03, a, b, c] 6 = [0xaa, 0x0b, 0x03, a, b, c] := fun _ _ _ => rfl
  unfold interludeSpecified
  simp only [sendCommand_nocrc_log, List.set_cons_succ, List.set_cons_zero, hb]
  rfl

/-! ## Algebra of the checksum -/

/-- C14: the checksum does not depend on the order of the bytes: when buffer
`b` is a permutation of buffer `a`, of the same length `n <= 255`, then
`checksum a n = checksum b n`. -/
theorem checksum_perm (a b : List Nat) (n : Nat) (hperm : a.Perm b) (hn : n = a.length)
    (_h255 : n ≤ 255) : checksum a n = checksum b n := by
  have hb : n = b.length := by rw [hn]; exact hperm.length_eq
  rw [checksum_eq_sum, checksum_eq_sum]
  conv_lhs => rw [hn, bytesAt_full]
  conv_rhs => rw [hb, bytesAt_full]
  rw [hperm.sum_eq]

theorem checksum_perm_witness :
    checksum [200, 100, 7] 3 = checksum [7, 200, 100] 3 :=
  checksum_perm [200, 100, 7] [7, 200, 100] 3 (by decide) rfl (by decide)

theorem take_set_sum (data : List Nat) (i k v : Nat) (hi : i < k) (hk : k ≤ data.length) :
    ((data.set i v).take k).sum + data.getD i 0 = (data.take k).sum + v := by
  have hil : i < (data.take k).length := by simp; omega
  have hg : data.getD i 0 = (data.take k)[i] := by
    rw [List.getD_eq_getElem?_getD, List.getElem?_eq_getElem (by omega)]
    simp
  rw [List.set_take, List.sum_set, if_pos hil, hg]
  have hsplit : (data.take k).sum =
      ((data.take k).take i).sum + ((data.take k)[i] + ((data.take k).drop (i + 1)).sum) := by
    conv_lhs => rw [← List.take_append_drop i (data.take k), List.drop_eq_getElem_cons hil]
    simp
  omega

/-- C15: when `validateCrc data n` holds, for `2 <= n <= 255` inside a buffer
of bytes: replacing the byte at one index `i < n-1` by a different byte value
makes `validateCrc` false; and any buffer with the same last byte `data[n-1]`
is accepted exactly when the sum of its first `n-1` bytes equals that of
`data` modulo 256. -/
theorem validateCrc_mutation (data : List Nat) (n : Nat) (h2 : 2 ≤ n) (h255 : n ≤ 255)
    (hsize : n ≤ data.length) (hbytes : ∀ b ∈ data, b < 256)
    (hvalid : validateCrc data n = true) :
    (∀ i v : Nat, i < n - 1 → v < 256 → v ≠ data.getD i 0 →
        validateCrc (data.set i v) n = false) ∧
      (∀ other : List Nat, other.length = data.length →
        other.getD (n - 1) 0 = data.getD (n - 1) 0 →
        (validateCrc other n = true ↔
          (other.take (n - 1)).sum % 256 = (data.take (n - 1)).sum % 256)) := by
  have hv := (validateCrc_accepts data n (by omega) h255).1 hvalid
  rw [checksum_eq_sum, bytesAt_eq_take data (n - 1) (by omega)] at hv
  refine ⟨fun i v hi hv256 hne => ?_, fun other hlen hlast => ?_⟩
  · have hold := getD_lt_of_forall data i hbytes
    have hsum := take_set_sum data i (n - 1) v hi (by omega)
    have hlast : (data.set i v).getD (n - 1) 0 = data.getD (n - 1) 0 := by
      simp only [List.getD_eq_getElem?_getD, List.getElem?_set]
      rw [if_neg (by omega)]
    apply Bool.eq_false_iff.mpr
    intro hacc
    have hv2 := (validateCrc_accepts (data.set i v) n (by omega) h255).1 hacc
    rw [checksum_eq_sum, bytesAt_eq_take _ (n - 1) (by simp; omega), hlast, ← hv] at hv2
    omega
  · rw [validateCrc_accepts other n (by omega) h255, checksum_eq_sum,
      bytesAt_eq_take other (n - 1) (by omega), hlast, ← hv]

theorem validateCrc_mutation_witness :
    (∀ i v : Nat, i < 4 - 1 → v < 256 → v ≠ [170, 1, 0, 171].getD i 0 →
        validateCrc ([170, 1, 0, 171].set i v) 4 = false) ∧
      (∀ other : List Nat, other.length = [170, 1, 0, 171].length →
        other.getD (4 - 1) 0 = [170, 1, 0, 171].getD (4 - 1) 0 →
        (validateCrc other 4 = true ↔
          (other.take (4 - 1)).sum % 256 = ([170, 1, 0, 171].take (4 - 1)).sum % 256)) :=
  validateCrc_mutation [170, 1, 0, 171] 4 (by decide) (by decide) (by decide) (by decide)
    (by decide)

/-! ## Sending -/

/-- C16: `byPathCommand` with an empty path and `combinationPlay` with
`len = 0` return without a transport write: the transmit log is the one they
were given, and on an empty log nothing is on the wire. -/
theorem degenerate_no_write (tx : Tx) (junk : Nat → Nat) (command device : Nat)
    (sounds : List (List Nat)) :
    byPathCommand tx junk command device [] = tx ∧
      combinationPlay tx sounds 0 = tx ∧
      wire (byPathCommand [] junk command device []) = [] ∧
      wire (combinationPlay [] sounds 0) = [] :=
  ⟨rfl, rfl, rfl, rfl⟩

/-- C17: `sendCommand data len crc` adds exactly two writes to the transmit
log, first the bytes `data[0..len)` and then the single byte `crc`;
`sendCommand_nocrc data len` adds the same two writes with
`crc = checksum data len`. Both only read `data`: they have no store to it and
hand no buffer back. -/
theorem sendCommand_two_writes (tx : Tx) (data : List Nat) (len crc : Nat)
    (hsize : len ≤ data.length) :
    sendCommand tx data len crc = tx ++ [data.take len, [crc]] ∧
      sendCommand_nocrc tx data len = tx ++ [data.take len, [checksum data len]] ∧
      sendCommand_nocrc tx data len = sendCommand tx data len (checksum data len) ∧
      (sendCommand tx data len crc).length = tx.length + 2 ∧
      (sendCommand_nocrc tx data len).length = tx.length + 2 := by
  have a := sendCommand_log tx data len crc
  have b := sendCommand_nocrc_log tx data len
  have c := sendCommand_log tx data len (checksum data len)
  rw [bytesAt_eq_take data len hsize] at a b c
  refine ⟨a, b, b.trans c.symm, ?_, ?_⟩
  · rw [a]; simp
  · rw [b]; simp

theorem sendCommand_two_writes_witness :
    sendCommand [] [170, 2, 0] 3 172 = [] ++ [[170, 2, 0].take 3, [172]] ∧
      sendCommand_nocrc [] [170, 2, 0] 3 = [] ++ [[170, 2, 0].take 3, [checksum [170, 2, 0] 3]] ∧
      sendCommand_nocrc [] [170, 2, 0] 3 = sendCommand [] [170, 2, 0] 3 (checksum [170, 2, 0] 3) ∧
      (sendCommand [] [170, 2, 0] 3 172).length = ([] : Tx).length + 2 ∧
      (sendCommand_nocrc [] [170, 2, 0] 3).length = ([] : Tx).length + 2 :=
  sendCommand_two_writes [] [170, 2, 0] 3 172 (by decide)

/-! ## The command buffer of a path -/

theorem take_succ_set (l : List Nat) (j a : Nat) (h : j < l.length) :
    (l.set j a).take (j + 1) = l.take j ++ [a] := by
  have hl : j < (l.set j a).length := by simpa using h
  rw [List.take_succ, List.set_take, List.set_eq_of_length_le (by simp)]
  simp [List.getElem?_eq_getElem hl]

theorem toupper_le (c : Nat) : toupper c ≤ c := by
  unfold toupper
  split <;> omega

theorem encodeChar_length (c : Nat) :
    (encodeChar c).length = 1 + if c = 0x2F then 1 else 0 := by
  unfold encodeChar
  split
  · next h => subst h; rfl
  · split <;> rfl

theorem encoded_length (cs : List Nat) :
    ((cs.map encodeChar).flatten).length = cs.length + cs.count 0x2F := by
  induction cs with
  | nil => rfl
  | cons c t ih =>
    simp only [List.map_cons, List.flatten_cons, List.length_append, List.length_cons, ih,
      encodeChar_length, List.count_cons, beq_iff_eq]
    omega

/-- One pass of the encoding loop, inside the buffer: the cursor moves past the
encoding of the character, which is what the pass stores. -/
theorem pathStep_spec (st : List Nat × Nat) (c : Nat) (hc : c < 256)
    (hroom : st.2 + (encodeChar c).length ≤ st.1.length) (h255 : st.1.length ≤ 255) :
    (pathStep st c).2 = st.2 + (encodeChar c).length ∧
      (pathStep st c).1.length = st.1.length ∧
      (pathStep st c).1.take (pathStep st c).2 = st.1.take st.2 ++ encodeChar c := by
  have hlen := encodeChar_length c
  have e1 : u8 (st.2 + 1) = st.2 + 1 := u8_of_lt (by omega)
  have hup : u8 (toupper c) = toupper c := u8_of_lt (Nat.lt_of_le_of_lt (toupper_le c) hc)
  unfold pathStep encodeChar
  by_cases hdot : c = 0x2E
  · have hne : ¬ c = 0x2F := by omega
    rw [if_neg hne] at hlen
    simp only [if_pos hdot, e1, List.length_set, List.length_cons, List.length_nil]
    exact ⟨trivial, trivial, take_succ_set _ _ _ (by omega)⟩
  · by_cases hsl : c = 0x2F
    · rw [if_pos hsl] at hlen
      have e2 : u8 (st.2 + 1 + 1) = st.2 + 1 + 1 := u8_of_lt (by omega)
      have h2f : u8 (toupper c) = 0x2F := by rw [hsl]; rfl
      simp only [if_neg hdot, if_pos hsl, e1, e2, h2f, List.length_set,
        List.length_cons, List.length_nil]
      refine ⟨trivial, trivial, ?_⟩
      rw [take_succ_set _ _ _ (by simp; omega), take_succ_set _ _ _ (by omega)]
      simp
    · rw [if_neg hsl] at hlen
      simp only [if_neg hdot, if_neg hsl, e1, hup, List.length_set, List.length_cons,
        List.length_nil]
      exact ⟨trivial, trivial, take_succ_set _ _ _ (by omega)⟩

/-- The encoding loop over the characters `cs`, inside the buffer: it stores
the encoding of `cs` from the cursor on and leaves what is before it. -/
theorem pathFold_spec (cs : List Nat) (st : List Nat × Nat) (hc : ∀ c ∈ cs, c < 256)
    (hroom : st.2 + ((cs.map encodeChar).flatten).length ≤ st.1.length)
    (h255 : st.1.length ≤ 255) :
    (cs.foldl pathStep st).2 = st.2 + ((cs.map encodeChar).flatten).length ∧
      (cs.foldl pathStep st).1.length = st.1.length ∧
      (cs.foldl pathStep st).1.take (cs.foldl pathStep st).2 =
        st.1.take st.2 ++ (cs.map encodeChar).flatten := by
  induction cs generalizing st with
  | nil => simp
  | cons c t ih =>
    simp only [List.map_cons, List.flatten_cons, List.length_append] at hroom
    obtain ⟨a1, a2, a3⟩ := pathStep_spec st c (hc c (List.mem_cons_self _ _)) (by omega) h255
    obtain ⟨b1, b2, b3⟩ := ih (pathStep st c) (fun x hx => hc x (List.mem_cons_of_mem _ hx))
      (by rw [a1, a2]; omega) (by rw [a2]; exact h255)
    simp only [List.foldl_cons, List.map_cons, List.flatten_cons, List.length_append]
    refine ⟨by rw [b1, a1]; omega, b2.trans a2, ?_⟩
    rw [b3, a3, List.append_assoc]

/-- The characters the loops of `byPathCommand` visit are those after the first. -/
theorem path_tail_chars (path : List Nat) :
    (List.range' 1 (path.length - 1)).map (fun i => path.getD i 0) = path.drop 1 := by
  cases path with
  | nil => rfl
  | cons a t =>
    have h : ∀ x : Nat, (a :: t).getD (1 + x) 0 = t.getD x 0 := by
      intro x
      rw [Nat.add_comm]
      rfl
    simp only [List.length_cons, Nat.add_sub_cancel, List.range'_eq_map_range, List.map_map,
      List.drop_succ_cons, List.drop_zero]
    have hb := bytesAt_full t
    unfold bytesAt at hb
    conv_rhs => rw [← hb]
    apply List.map_congr_left
    intro x _
    simp only [Function.comp, h]

/-- The expanded length the code counts is the one the specification defines. -/
theorem pathLen_eq (path : List Nat) (h255 : expandedLength path ≤ 255) :
    pathLen path path.length = expandedLength path := by
  have hfold : ∀ (cs : List Nat) (l : Nat), l + cs.count 0x2F ≤ 255 →
      cs.foldl (fun l c => if c = 0x2F then u8 (l + 1) else l) l = l + cs.count 0x2F := by
    intro cs
    induction cs with
    | nil => intro l _; rfl
    | cons c t ih =>
      intro l hl
      simp only [List.count_cons, beq_iff_eq] at hl
      simp only [List.foldl_cons, List.count_cons, beq_iff_eq]
      by_cases hc : c = 0x2F
      · rw [if_pos hc] at hl
        rw [if_pos hc, if_pos hc, u8_of_lt (by omega), ih _ (by omega)]
        omega
      · rw [if_neg hc] at hl
        rw [if_neg hc, if_neg hc, ih _ (by omega)]
        rfl
  unfold pathLen
  rw [← List.foldl_map (fun i => path.getD i 0) (fun l c => if c = 0x2F then u8 (l + 1) else l),
    path_tail_chars, hfold _ _ h255]
  rfl

theorem header_take (l : List Nat) (a b c d e : Nat) (h : 5 ≤ l.length) :
    (((((l.set 0 a).set 1 b).set 2 c).set 3 d).set 4 e).take 5 = [a, b, c, d, e] := by
  rw [take_succ_set _ _ _ (by simp only [List.length_set]; omega),
    take_succ_set _ _ _ (by simp only [List.length_set]; omega),
    take_succ_set _ _ _ (by simp only [List.length_set]; omega),
    take_succ_set _ _ _ (by simp only [List.length_set]; omega),
    take_succ_set _ _ _ (by omega)]
  rfl

theorem take_one_eq (l : List Nat) (h : 1 ≤ l.length) : l.take 1 = [l.getD 0 0] := by
  cases l with
  | nil => simp at h
  | cons a t => rfl

theorem uninit_length (junk : Nat → Nat) (n : Nat) : (uninit junk n).length = n := by
  simp [uninit]

/-- The stack buffer keeps its `DY_PATH_LEN + 4` bytes. -/
theorem pathBuffer_length (junk : Nat → Nat) (command device : Nat) (path : List Nat)
    (len : Nat) (hlen : len ≤ 125) :
    (pathBuffer junk command device path len).1.length = DY_PATH_LEN + 4 := by
  unfold pathBuffer
  simp only []
  rw [← List.foldl_map (fun i => path.getD i 0) pathStep]
  have h := pathFold_inv ((List.range' 1 (len - 1)).map fun i => path.getD i 0)
    (((((((uninit junk (DY_PATH_LEN + 4)).set 0 0xaa).set 1 command).set 2
      (u8 (pathLen path len + 1))).set 3 (u8 device)).set 4 (path.getD 0 0)), 5)
    (Nat.le_refl 5) (by simp; omega)
  rw [h.2.1]
  simp only [List.length_set, uninit_length]

/-- What `byPathCommand` has in its buffer when the encoding loop ends, for a
path of characters that is not empty and whose expanded length fits: the
header, then the encoded path of the specification; the cursor stands right
after it. -/
theorem pathBuffer_spec (junk : Nat → Nat) (command device : Nat) (path : List Nat)
    (h1 : 1 ≤ path.length) (h40 : expandedLength path ≤ DY_PATH_LEN)
    (hc : ∀ c ∈ path, c < 256) :
    (pathBuffer junk command device path path.length).2 = 4 + expandedLength path ∧
      (pathBuffer junk command device path path.length).1.take (4 + expandedLength path) =
        [0xaa, command, expandedLength path + 1, u8 device] ++ encodedPath path := by
  have h40n : expandedLength path ≤ 40 := h40
  have hE : ((List.map encodeChar (path.drop 1)).flatten).length + 1 = expandedLength path := by
    rw [encoded_length]
    unfold expandedLength
    simp only [List.length_drop]
    omega
  have hb0 : ∀ x : Nat, (((((((uninit junk (DY_PATH_LEN + 4)).set 0 0xaa).set 1 command).set 2
      x).set 3 (u8 device)).set 4 (path.getD 0 0))).length = 44 := by
    intro x
    simp only [List.length_set, uninit_length, DY_PATH_LEN]
  obtain ⟨a1, _, a3⟩ := pathFold_spec (path.drop 1)
    (((((((uninit junk (DY_PATH_LEN + 4)).set 0 0xaa).set 1 command).set 2
      (u8 (expandedLength path + 1))).set 3 (u8 device)).set 4 (path.getD 0 0)), 5)
    (fun c hmem => hc c (List.mem_of_mem_drop hmem))
    (by simp only [hb0]; omega) (by simp only [hb0]; omega)
  simp only [] at a1 a3
  unfold pathBuffer
  simp only []
  rw [← List.foldl_map (fun i => path.getD i 0) pathStep, path_tail_chars,
    pathLen_eq path (by omega)]
  have hj : 5 + ((List.map encodeChar (path.drop 1)).flatten).length =
      4 + expandedLength path := by omega
  rw [hj] at a1
  refine ⟨a1, ?_⟩
  rw [← a1, a3, header_take _ _ _ _ _ _ (by simp only [uninit_length, DY_PATH_LEN]; omega),
    u8_of_lt (by omega : expandedLength path + 1 < 256)]
  unfold encodedPath
  rw [take_one_eq path h1]
  rfl

/-- The transmit log of `byPathCommand` for a path that is not empty and whose
expanded length fits. -/
theorem byPathCommand_log (junk : Nat → Nat) (command device : Nat) (path : List Nat)
    (h1 : 1 ≤ path.length) (h40 : expandedLength path ≤ DY_PATH_LEN) :
    byPathCommand [] junk command device path =
      [(pathBuffer junk command device path path.length).1.take (path.length + 4),
        [checksum (pathBuffer junk command device path path.length).1 (path.length + 4)]] := by
  have hl : path.length ≤ 40 := Nat.le_trans (length_le_expandedLength path) h40
  have hu : u8 path.length = path.length := u8_of_lt (by omega)
  have hu4 : u8 (path.length + 4) = path.length + 4 := u8_of_lt (by omega)
  have hlen := pathBuffer_length junk command device path path.length (by omega)
  unfold byPathCommand
  simp only [hu, hu4]
  rw [if_neg (by omega), sendCommand_nocrc_log,
    bytesAt_eq_take _ _ (by rw [hlen]; simp only [DY_PATH_LEN]; omega)]
  rfl

/-! ## Claims on path commands -/

/-- C18: for every path that is not empty and whose expanded length is at most
40, `byPathCommand` performs exactly two writes: the first
`strlen(path) + 4` bytes of the command buffer, then one byte, the checksum of
exactly those `strlen(path) + 4` bytes. -/
theorem byPathCommand_two_writes (junk : Nat → Nat) (command device : Nat) (path : List Nat)
    (h1 : 1 ≤ path.length) (h40 : expandedLength path ≤ DY_PATH_LEN) :
    byPathCommand [] junk command device path =
        [(pathBuffer junk command device path path.length).1.take (path.length + 4),
          [((pathBuffer junk command device path path.length).1.take
            (path.length + 4)).sum % 256]] ∧
      ((pathBuffer junk command device path path.length).1.take (path.length + 4)).length =
        path.length + 4 ∧
      ((pathBuffer junk command device path path.length).1.take (path.length + 4)).sum % 256 =
        checksum ((pathBuffer junk command device path path.length).1.take (path.length + 4))
          (path.length + 4) := by
  have hl : path.length ≤ 40 := Nat.le_trans (length_le_expandedLength path) h40
  have hlen := pathBuffer_length junk command device path path.length (by omega)
  have hfit : path.length + 4 ≤ (pathBuffer junk command device path path.length).1.length := by
    rw [hlen]; simp only [DY_PATH_LEN]; omega
  have htl : ((pathBuffer junk command device path path.length).1.take
      (path.length + 4)).length = path.length + 4 := by
    rw [List.length_take]; omega
  refine ⟨?_, htl, ?_⟩
  · rw [byPathCommand_log junk command device path h1 h40, checksum_eq_sum,
      bytesAt_eq_take _ _ hfit]
  · rw [checksum_eq_sum, bytesAt_eq_take _ _ (Nat.le_of_eq htl.symm), List.take_take,
      Nat.min_self]

theorem byPathCommand_two_writes_witness :
    byPathCommand [] (fun _ => 0) 0x08 Usb songPath =
        [(pathBuffer (fun _ => 0) 0x08 Usb songPath songPath.length).1.take
            (songPath.length + 4),
          [((pathBuffer (fun _ => 0) 0x08 Usb songPath songPath.length).1.take
            (songPath.length + 4)).sum % 256]] ∧
      ((pathBuffer (fun _ => 0) 0x08 Usb songPath songPath.length).1.take
        (songPath.length + 4)).length = songPath.length + 4 :=
  ⟨(byPathCommand_two_writes (fun _ => 0) 0x08 Usb songPath (by decide) (by decide)).1,
    (byPathCommand_two_writes (fun _ => 0) 0x08 Usb songPath (by decide) (by decide)).2.1⟩

/-- C19: for every path of characters that is not empty and whose expanded
length is at most 40, the first four bytes `byPathCommand` transmits are
`[0xAA, command, expandedLength + 1, device]`; the command is 0x08 in a call
through `playSpecifiedDevicePath` and 0x17 in a call through
`interludeSpecifiedDevicePath`. -/
theorem byPathCommand_header (junk : Nat → Nat) (command device : Nat) (path : List Nat)
    (h1 : 1 ≤ path.length) (h40 : expandedLength path ≤ DY_PATH_LEN)
    (hc : ∀ c ∈ path, c < 256) (hdev : device < 256) :
    (wire (byPathCommand [] junk command device path)).take 4 =
        [0xAA, command, expandedLength path + 1, device] ∧
      (wire (playSpecifiedDevicePath [] junk device path)).take 4 =
        [0xAA, 0x08, expandedLength path + 1, device] ∧
      (wire (interludeSpecifiedDevicePath [] junk device path)).take 4 =
        [0xAA, 0x17, expandedLength path + 1, device] := by
  have hgen : ∀ cmd : Nat, (wire (byPathCommand [] junk cmd device path)).take 4 =
      [0xAA, cmd, expandedLength path + 1, device] := by
    intro cmd
    have hle := length_le_expandedLength path
    obtain ⟨_, hspec⟩ := pathBuffer_spec junk cmd device path h1 h40 hc
    have h4 : (pathBuffer junk cmd device path path.length).1.take 4 =
        [0xAA, cmd, expandedLength path + 1, device] := by
      have := congrArg (List.take 4) hspec
      rw [List.take_take, Nat.min_eq_left (by omega),
        List.take_append_of_le_length (by simp), u8_of_lt hdev] at this
      exact this
    rw [byPathCommand_log junk cmd device path h1 h40]
    simp only [wire, List.flatten_cons, List.flatten_nil, List.append_nil]
    rw [List.take_append_of_le_length (by
      rw [List.length_take, pathBuffer_length _ _ _ _ _ (by
        have : expandedLength path ≤ 40 := h40
        omega)]
      simp only [DY_PATH_LEN]; omega), List.take_take, Nat.min_eq_left (by omega), h4]
  exact ⟨hgen command, hgen 0x08, hgen 0x17⟩

theorem byPathCommand_header_witness :
    (wire (byPathCommand [] (fun _ => 0) 0x08 Sd songPath)).take 4 =
        [0xAA, 0x08, expandedLength songPath + 1, Sd] ∧
      (wire (playSpecifiedDevicePath [] (fun _ => 0) Sd songPath)).take 4 =
        [0xAA, 0x08, expandedLength songPath + 1, Sd] ∧
      (wire (interludeSpecifiedDevicePath [] (fun _ => 0) Sd songPath)).take 4 =
        [0xAA, 0x17, expandedLength songPath + 1, Sd] :=
  byPathCommand_header (fun _ => 0) 0x08 Sd songPath (by decide) (by decide) (by decide)
    (by decide)

/-- C20: for every path of characters that is not empty and whose expanded
length is at most 40, what `byPathCommand` builds in its buffer from index 4
on is `path[0]` followed by the encodings of `path[1]`, ..., in order, where a
dot gives a star, a slash gives a star and the slash, and any other character
gives its upper case; that body has `strlen(path)` bytes plus one for every
slash at an index from 1 on. -/
theorem pathBuffer_body (junk : Nat → Nat) (command device : Nat) (path : List Nat)
    (h1 : 1 ≤ path.length) (h40 : expandedLength path ≤ DY_PATH_LEN)
    (hc : ∀ c ∈ path, c < 256) :
    ((pathBuffer junk command device path path.length).1.drop 4).take
        (path.length + (path.drop 1).count 0x2F) =
        path.getD 0 0 :: ((path.drop 1).map encodeChar).flatten ∧
      (path.getD 0 0 :: ((path.drop 1).map encodeChar).flatten).length =
        path.length + (path.drop 1).count 0x2F ∧
      encodeChar 0x2E = [0x2A] ∧ encodeChar 0x2F = [0x2A, 0x2F] ∧
      (∀ c : Nat, c ≠ 0x2E → c ≠ 0x2F → encodeChar c = [toupper c]) := by
  obtain ⟨_, hspec⟩ := pathBuffer_spec junk command device path h1 h40 hc
  have hbody := congrArg (List.drop 4) hspec
  rw [List.drop_take, Nat.add_sub_cancel_left,
    List.drop_left' (by rfl : [0xaa, command, expandedLength path + 1, u8 device].length = 4)]
    at hbody
  have henc : encodedPath path = path.getD 0 0 :: ((path.drop 1).map encodeChar).flatten := by
    unfold encodedPath
    rw [take_one_eq path h1]
    rfl
  refine ⟨?_, ?_, rfl, rfl, ?_⟩
  · rw [← henc, ← hbody]
    rfl
  · rw [List.length_cons, encoded_length, List.length_drop]
    omega
  · intro c h2e h2f
    unfold encodeChar
    rw [if_neg h2e, if_neg h2f]

theorem pathBuffer_body_witness :
    ((pathBuffer (fun _ => 0) 0x08 Usb songPath songPath.length).1.drop 4).take
        (songPath.length + (songPath.drop 1).count 0x2F) =
        songPath.getD 0 0 :: ((songPath.drop 1).map encodeChar).flatten ∧
      songPath.getD 0 0 :: ((songPath.drop 1).map encodeChar).flatten = songPathEncoded :=
  ⟨(pathBuffer_body (fun _ => 0) 0x08 Usb songPath (by decide) (by decide) (by decide)).1,
    by decide⟩

/-! ## Bounds of the command buffer -/

/-- A pass of the encoding loop changes the buffer only at the indices that
`pathStepStores` lists. -/
theorem pathStep_frame (st : List Nat × Nat) (c k : Nat) (hk : k ∉ pathStepStores st.2 c) :
    (pathStep st c).1.getD k 0 = st.1.getD k 0 := by
  unfold pathStepStores at hk
  unfold pathStep
  by_cases hdot : c = 0x2E
  · simp only [if_pos hdot, List.mem_singleton] at hk
    simp only [if_pos hdot, List.getD_eq_getElem?_getD, List.getElem?_set]
    rw [if_neg (fun h => hk h.symm)]
  · by_cases hsl : c = 0x2F
    · simp only [if_neg hdot, if_pos hsl, List.mem_cons, List.mem_singleton, not_or,
        List.not_mem_nil, or_false] at hk
      simp only [if_neg hdot, if_pos hsl, List.getD_eq_getElem?_getD, List.getElem?_set]
      rw [if_neg (fun h => hk.2 h.symm), if_neg (fun h => hk.1 h.symm)]
    · simp only [if_neg hdot, if_neg hsl, List.mem_singleton] at hk
      simp only [if_neg hdot, if_neg hsl, List.getD_eq_getElem?_getD, List.getElem?_set]
      rw [if_neg (fun h => hk h.symm)]

/-- The traced run is the run of `pathBuffer`. -/
theorem pathFoldTraced_fst (cs : List Nat) (st : (List Nat × Nat) × List Nat) :
    (cs.foldl pathStepTraced st).1 = cs.foldl pathStep st.1 := by
  induction cs generalizing st with
  | nil => rfl
  | cons c t ih => simp only [List.foldl_cons, ih, pathStepTraced]

theorem pathBufferTraced_fst (junk : Nat → Nat) (command device : Nat) (path : List Nat)
    (len : Nat) :
    (pathBufferTraced junk command device path len).1 =
      pathBuffer junk command device path len := by
  unfold pathBufferTraced pathBuffer
  simp only []
  rw [← List.foldl_map (fun i => path.getD i 0) pathStepTraced, pathFoldTraced_fst,
    ← List.foldl_map (fun i => path.getD i 0) pathStep]

/-- The cursor after one pass, whatever the buffer. -/
theorem pathStep_cursor (st : List Nat × Nat) (c : Nat) (h : st.2 + (encodeChar c).length ≤ 255) :
    (pathStep st c).2 = st.2 + (encodeChar c).length := by
  have hlen := encodeChar_length c
  have e1 : u8 (st.2 + 1) = st.2 + 1 := u8_of_lt (by omega)
  unfold pathStep
  by_cases hdot : c = 0x2E
  · have hne : ¬ c = 0x2F := by omega
    rw [if_neg hne] at hlen
    simp only [if_pos hdot, e1]
    omega
  · by_cases hsl : c = 0x2F
    · rw [if_pos hsl] at hlen
      have e2 : u8 (st.2 + 1 + 1) = st.2 + 1 + 1 := u8_of_lt (by omega)
      simp only [if_neg hdot, if_pos hsl, e1, e2]
      omega
    · rw [if_neg hsl] at hlen
      simp only [if_neg hdot, if_neg hsl, e1]
      omega

/-- Every index a pass stores to is at or after the cursor and before the
cursor it leaves. -/
theorem pathStepStores_bound (j c i : Nat) (h : j + (encodeChar c).length ≤ 255)
    (hi : i ∈ pathStepStores j c) : j ≤ i ∧ i < j + (encodeChar c).length := by
  have hlen := encodeChar_length c
  have e1 : u8 (j + 1) = j + 1 := u8_of_lt (by omega)
  unfold pathStepStores at hi
  by_cases hdot : c = 0x2E
  · simp only [if_pos hdot, List.mem_singleton] at hi
    omega
  · by_cases hsl : c = 0x2F
    · rw [if_pos hsl] at hlen
      simp only [if_neg hdot, if_pos hsl, e1, List.mem_cons, List.mem_singleton,
        List.not_mem_nil, or_false] at hi
      omega
    · simp only [if_neg hdot, if_neg hsl, List.mem_singleton] at hi
      omega

/-- The traced encoding loop: every recorded index is below the cursor, and
the cursor has moved by the length of the encoding. -/
theorem pathFoldTraced_bound (cs : List Nat) (st : (List Nat × Nat) × List Nat)
    (hst : ∀ i ∈ st.2, i < st.1.2)
    (h255 : st.1.2 + ((cs.map encodeChar).flatten).length ≤ 255) :
    (cs.foldl pathStepTraced st).1.2 = st.1.2 + ((cs.map encodeChar).flatten).length ∧
      ∀ i ∈ (cs.foldl pathStepTraced st).2, i < (cs.foldl pathStepTraced st).1.2 := by
  induction cs generalizing st with
  | nil => exact ⟨rfl, hst⟩
  | cons c t ih =>
    simp only [List.map_cons, List.flatten_cons, List.length_append] at h255
    have hcur : (pathStepTraced st c).1.2 = st.1.2 + (encodeChar c).length :=
      pathStep_cursor st.1 c (by omega)
    have hnew : ∀ i ∈ (pathStepTraced st c).2, i < (pathStepTraced st c).1.2 := by
      intro i hi
      rw [hcur]
      simp only [pathStepTraced, List.mem_append] at hi
      rcases hi with hi | hi
      · have := hst i hi
        omega
      · exact (pathStepStores_bound st.1.2 c i (by omega) hi).2
    obtain ⟨a, b⟩ := ih (pathStepTraced st c) hnew (by rw [hcur]; omega)
    simp only [List.foldl_cons, List.map_cons, List.flatten_cons, List.length_append]
    exact ⟨by rw [a, hcur]; omega, b⟩

/-- C21: for every path with `strlen >= 1` and expanded length at most
`DY_PATH_LEN = 40`, every index of the `DY_PATH_LEN + 4 = 44` byte stack buffer
that `byPathCommand` stores to, and every index it sends from, is below 44, and
the write cursor `j` ends at `4 + expandedLength`. -/
theorem pathBuffer_in_bounds (junk : Nat → Nat) (command device : Nat) (path : List Nat)
    (h1 : 1 ≤ path.length) (h40 : expandedLength path ≤ DY_PATH_LEN) :
    (∀ i ∈ (pathBufferTraced junk command device path (u8 path.length)).2,
        i < DY_PATH_LEN + 4) ∧
      (∀ i ∈ List.range (u8 (u8 path.length + 4)), i < DY_PATH_LEN + 4) ∧
      (pathBuffer junk command device path (u8 path.length)).2 = 4 + expandedLength path ∧
      DY_PATH_LEN + 4 = 44 := by
  have h40n : expandedLength path ≤ 40 := h40
  have hle := length_le_expandedLength path
  have hu : u8 path.length = path.length := u8_of_lt (by omega)
  have hu4 : u8 (path.length + 4) = path.length + 4 := u8_of_lt (by omega)
  have hE : ((List.map encodeChar (path.drop 1)).flatten).length + 1 = expandedLength path := by
    rw [encoded_length]
    unfold expandedLength
    simp only [List.length_drop]
    omega
  have htr : ∀ b : List Nat,
      ((path.drop 1).foldl pathStepTraced ((b, 5), [0, 1, 2, 3, 4])).1.2 =
          4 + expandedLength path ∧
        ∀ i ∈ ((path.drop 1).foldl pathStepTraced ((b, 5), [0, 1, 2, 3, 4])).2,
          i < 4 + expandedLength path := by
    intro b
    have h0 : ∀ i ∈ [0, 1, 2, 3, 4], i < 5 := by decide
    obtain ⟨a, c⟩ := pathFoldTraced_bound (path.drop 1) ((b, 5), [0, 1, 2, 3, 4])
      h0 (by simp only []; omega)
    simp only [] at a
    have ha : ((path.drop 1).foldl pathStepTraced ((b, 5), [0, 1, 2, 3, 4])).1.2 =
        4 + expandedLength path := by rw [a]; omega
    exact ⟨ha, fun i hi => by rw [← ha]; exact c i hi⟩
  rw [hu, hu4]
  refine ⟨?_, ?_, ?_, rfl⟩
  · intro i hi
    unfold pathBufferTraced at hi
    simp only [] at hi
    rw [← List.foldl_map (fun i => path.getD i 0) pathStepTraced, path_tail_chars] at hi
    have := (htr _).2 i hi
    simp only [DY_PATH_LEN]
    omega
  · intro i hi
    rw [List.mem_range] at hi
    simp only [DY_PATH_LEN]
    omega
  · rw [← pathBufferTraced_fst]
    unfold pathBufferTraced
    simp only []
    rw [← List.foldl_map (fun i => path.getD i 0) pathStepTraced, path_tail_chars]
    exact (htr _).1

theorem pathBuffer_in_bounds_witness :
    (∀ i ∈ (pathBufferTraced (fun _ => 0) 0x08 Usb songPath (u8 songPath.length)).2,
        i < DY_PATH_LEN + 4) ∧
      (∀ i ∈ List.range (u8 (u8 songPath.length + 4)), i < DY_PATH_LEN + 4) ∧
      (pathBuffer (fun _ => 0) 0x08 Usb songPath (u8 songPath.length)).2 =
        4 + expandedLength songPath ∧
      DY_PATH_LEN + 4 = 44 :=
  pathBuffer_in_bounds (fun _ => 0) 0x08 Usb songPath (by decide) (by decide)

/-! ## Case and dots in the encoded path -/

/-- No byte of the encoding of a character is a dot or a lowercase letter. -/
theorem encodeChar_clean (c b : Nat) (hb : b ∈ encodeChar c) :
    b ≠ 0x2E ∧ ¬ (97 ≤ b ∧ b ≤ 122) := by
  unfold encodeChar at hb
  by_cases hdot : c = 0x2E
  · simp only [if_pos hdot, List.mem_singleton] at hb
    omega
  · by_cases hsl : c = 0x2F
    · simp only [if_neg hdot, if_pos hsl, List.mem_cons, List.mem_singleton,
        List.not_mem_nil, or_false] at hb
      omega
    · simp only [if_neg hdot, if_neg hsl, List.mem_singleton, toupper] at hb
      split at hb <;> omega

theorem encoded_clean (cs : List Nat) (b : Nat) (hb : b ∈ (cs.map encodeChar).flatten) :
    b ≠ 0x2E ∧ ¬ (97 ≤ b ∧ b ≤ 122) := by
  rw [List.mem_flatten] at hb
  obtain ⟨l, hl, hbl⟩ := hb
  rw [List.mem_map] at hl
  obtain ⟨c, _, rfl⟩ := hl
  exact encodeChar_clean c b hbl

/-- The encoded path in the buffer is the encoded path of the specification. -/
theorem encodedPayload_eq (junk : Nat → Nat) (command device : Nat) (path : List Nat)
    (h1 : 1 ≤ path.length) (h40 : expandedLength path ≤ DY_PATH_LEN)
    (hc : ∀ c ∈ path, c < 256) :
    encodedPayload junk command device path =
      path.getD 0 0 :: ((path.drop 1).map encodeChar).flatten := by
  have h40n : expandedLength path ≤ 40 := h40
  have hle := length_le_expandedLength path
  have hu : u8 path.length = path.length := u8_of_lt (by omega)
  obtain ⟨hcur, hspec⟩ := pathBuffer_spec junk command device path h1 h40 hc
  unfold encodedPayload
  rw [hu, hcur, hspec,
    List.drop_left' (by rfl : [0xaa, command, expandedLength path + 1, u8 device].length = 4)]
  unfold encodedPath
  rw [take_one_eq path h1]
  rfl

/-- C22, at the paths `a` and `./A`: the first character is copied as it is,
so the encoded path of `a` is `a`, with a lowercase letter, and the encoded
path of `./A` is `.*/A`, with a dot. -/
theorem encodedPayload_first_verbatim :
    encodedPayload (fun _ => 0) 0x08 Usb [0x61] = [0x61] ∧
      encodedPayload (fun _ => 0) 0x08 Usb [0x2E, 0x2F, 0x41] = [0x2E, 0x2A, 0x2F, 0x41] ∧
      ¬ (∀ path : List Nat, 1 ≤ path.length →
        ∀ b ∈ encodedPayload (fun _ => 0) 0x08 Usb path, b ≠ 0x2E ∧ ¬ (97 ≤ b ∧ b ≤ 122)) := by
  have ha : encodedPayload (fun _ => 0) 0x08 Usb [0x61] = [0x61] := by decide
  refine ⟨ha, by decide, fun h => ?_⟩
  have := h [0x61] (by decide) 0x61 (by rw [ha]; exact List.mem_singleton.mpr rfl)
  omega

/-- C22 as amended: for every path of characters that is not empty and whose
expanded length is at most 40, the encoded path in the buffer is `path[0]`, as
it is, followed by bytes none of which is a dot or a lowercase letter; the
path bytes of the first write are a prefix of it; so there is no dot and no
lowercase letter in either when `path[0]` is neither, as the root slash is. -/
theorem encodedPayload_clean (junk : Nat → Nat) (command device : Nat) (path : List Nat)
    (h1 : 1 ≤ path.length) (h40 : expandedLength path ≤ DY_PATH_LEN)
    (hc : ∀ c ∈ path, c < 256) :
    (encodedPayload junk command device path).take 1 = [path.getD 0 0] ∧
      (∀ b ∈ (encodedPayload junk command device path).drop 1,
        b ≠ 0x2E ∧ ¬ (97 ≤ b ∧ b ≤ 122)) ∧
      ((byPathCommand [] junk command device path).getD 0 []).drop 4 =
        (encodedPayload junk command device path).take path.length ∧
      (path.getD 0 0 ≠ 0x2E ∧ ¬ (97 ≤ path.getD 0 0 ∧ path.getD 0 0 ≤ 122) →
        ∀ b ∈ encodedPayload junk command device path, b ≠ 0x2E ∧ ¬ (97 ≤ b ∧ b ≤ 122)) := by
  have h40n : expandedLength path ≤ 40 := h40
  have hle := length_le_expandedLength path
  have hu : u8 path.length = path.length := u8_of_lt (by omega)
  have heq := encodedPayload_eq junk command device path h1 h40 hc
  obtain ⟨hcur, _⟩ := pathBuffer_spec junk command device path h1 h40 hc
  refine ⟨by rw [heq]; rfl, ?_, ?_, ?_⟩
  · intro b hb
    rw [heq] at hb
    exact encoded_clean (path.drop 1) b hb
  · rw [byPathCommand_log junk command device path h1 h40]
    unfold encodedPayload
    rw [hu, hcur]
    simp only [List.getD_cons_zero, List.drop_take, List.take_take]
    congr 1
    omega
  · intro h0 b hb
    rw [heq, List.mem_cons] at hb
    rcases hb with rfl | hb
    · exact h0
    · exact encoded_clean (path.drop 1) b hb

theorem encodedPayload_clean_witness :
    (encodedPayload (fun _ => 0) 0x08 Usb songPath).take 1 = [songPath.getD 0 0] ∧
      (∀ b ∈ (encodedPayload (fun _ => 0) 0x08 Usb songPath).drop 1,
        b ≠ 0x2E ∧ ¬ (97 ≤ b ∧ b ≤ 122)) ∧
      (∀ b ∈ encodedPayload (fun _ => 0) 0x08 Usb songPath, b ≠ 0x2E ∧ ¬ (97 ≤ b ∧ b ≤ 122)) :=
  ⟨(encodedPayload_clean (fun _ => 0) 0x08 Usb songPath (by decide) (by decide) (by decide)).1,
    (encodedPayload_clean (fun _ => 0) 0x08 Usb songPath (by decide) (by decide) (by decide)).2.1,
    (encodedPayload_clean (fun _ => 0) 0x08 Usb songPath (by decide) (by decide)
      (by decide)).2.2.2 (by decide)⟩

/-! ## The command table and the fixed frames -/

/-- C23: every fixed row `r` of the command table, indices `PLAY_CMD` (0) to
`QFOLDERNUMBER_CMD` (16), has `r[0] = 0xAA`, `r[2] = 0x00` and `r[3]` equal to
`checksum r 3`; every parameterized row, indices 17 to 26, has `r[0] = 0xAA`
and `r[3] = 0x00`. -/
theorem controlCommands_rows (i : Nat) :
    (PLAY_CMD ≤ i → i ≤ QFOLDERNUMBER_CMD →
        (row i).getD 0 0 = 0xAA ∧ (row i).getD 2 0 = 0x00 ∧
          (row i).getD CMD_CRC_INDEX 0 = checksum (row i) LENGTHOF_COMMANDS) ∧
      (SETVOLUME_CMD ≤ i → i ≤ SLCTBUTNOPLAY_CMD →
        (row i).getD 0 0 = 0xAA ∧ (row i).getD CMD_CRC_INDEX 0 = 0x00) ∧
      PLAY_CMD = 0 ∧ QFOLDERNUMBER_CMD = 16 ∧ SETVOLUME_CMD = 17 ∧ SLCTBUTNOPLAY_CMD = 26 ∧
      controlCommands.length = SIZEOF_COMMANDS := by
  refine ⟨fun _ h16 => ?_, fun h17 h26 => ?_, rfl, rfl, rfl, rfl, rfl⟩
  · have h : i ≤ 16 := h16
    interval_cases i <;> decide
  · have ha : 17 ≤ i := h17
    have hb : i ≤ 26 := h26
    interval_cases i <;> decide

theorem controlCommands_rows_witness :
    ((row 12).getD 0 0 = 0xAA ∧ (row 12).getD 2 0 = 0x00 ∧
        (row 12).getD CMD_CRC_INDEX 0 = checksum (row 12) LENGTHOF_COMMANDS) ∧
      ((row 21).getD 0 0 = 0xAA ∧ (row 21).getD CMD_CRC_INDEX 0 = 0x00) :=
  ⟨(controlCommands_rows 12).1 (by decide) (by decide),
    (controlCommands_rows 21).2.1 (by decide) (by decide)⟩

/-- What a query has transmitted does not depend on what its read returns. -/
theorem query_sent {α : Type} (c : Bool) (a b : α) (data : List Nat) (crc : Nat) :
    wire (if c = true then (a, sendCommand [] data 3 crc)
      else (b, sendCommand [] data 3 crc)).2 = bytesAt data 3 ++ [crc] := by
  rw [query_log, sendCommand_log]
  simp [wire]

/-- C24: each operation without argument transmits its 4-byte frame: `play`
AA 02 00 AC, `pause` AA 03 00 AD, `stop` AA 04 00 AE, `previous` AA 05 00 AF,
`volumeIncrease` AA 14 00 BE, `volumeDecrease` AA 15 00 BF, `stopInterlude`
AA 10 00 BA, `endCombinationPlay` AA 1C 00 C6; and each query transmits,
whatever its read then returns, `checkPlayState` AA 01 00 AB, `getSoundCount`
AA 0C 00 B6, `getPlayingSound` AA 0D 00 B7, `getFirstInDir` AA 11 00 BB,
`getSoundCountDir` AA 12 00 BC. -/
theorem fixed_frames (shortEnums : Bool) (read : Reader) (junk : Nat → Nat) :
    wire (play []) = [0xAA, 0x02, 0x00, 0xAC] ∧
      wire (pause []) = [0xAA, 0x03, 0x00, 0xAD] ∧
      wire (stop []) = [0xAA, 0x04, 0x00, 0xAE] ∧
      wire (previous []) = [0xAA, 0x05, 0x00, 0xAF] ∧
      wire (volumeIncrease []) = [0xAA, 0x14, 0x00, 0xBE] ∧
      wire (volumeDecrease []) = [0xAA, 0x15, 0x00, 0xBF] ∧
      wire (stopInterlude []) = [0xAA, 0x10, 0x00, 0xBA] ∧
      wire (endCombinationPlay []) = [0xAA, 0x1C, 0x00, 0xC6] ∧
      wire (checkPlayState shortEnums read [] junk).2 = [0xAA, 0x01, 0x00, 0xAB] ∧
      wire (getSoundCount read [] junk).2 = [0xAA, 0x0C, 0x00, 0xB6] ∧
      wire (getPlayingSound read [] junk).2 = [0xAA, 0x0D, 0x00, 0xB7] ∧
      wire (getFirstInDir read [] junk).2 = [0xAA, 0x11, 0x00, 0xBB] ∧
      wire (getSoundCountDir read [] junk).2 = [0xAA, 0x12, 0x00, 0xBC] := by
  refine ⟨by decide, by decide, by decide, by decide, by decide, by decide, by decide,
    by decide, ?_, ?_, ?_, ?_, ?_⟩
  · unfold checkPlayState
    simp only [LENGTHOF_COMMANDS, query_sent]
    rfl
  · unfold getSoundCount
    simp only [LENGTHOF_COMMANDS, query_sent]
    rfl
  · unfold getPlayingSound
    simp only [LENGTHOF_COMMANDS, query_sent]
    rfl
  · unfold getFirstInDir
    simp only [LENGTHOF_COMMANDS, query_sent]
    rfl
  · unfold getSoundCountDir
    simp only [LENGTHOF_COMMANDS, query_sent]
    rfl

/-- C25: `next` and `previous` transmit the same bytes, the row `PREV_CMD` of
the command table followed by its checksum: `[0xAA, 0x05, 0x00, 0xAF]`. -/
theorem next_eq_previous :
    wire (next []) = wire (previous []) ∧
      wire (next []) = [0xAA, 0x05, 0x00, 0xAF] ∧
      wire (previous []) = [0xAA, 0x05, 0x00, 0xAF] ∧
      wire (previous []) = (row PREV_CMD).take 3 ++ [(row PREV_CMD).getD CMD_CRC_INDEX 0] ∧
      next [] = previous [] := by
  decide

/-- The frame of a setter with one parameter byte. -/
theorem setter1_frame (cmd p a b c : Nat) (hrow : bytesAt (row cmd) 3 = [a, b, c]) :
    wire (sendCommand_nocrc []
        ((memcpy (List.replicate 4 0) (row cmd) LENGTHOF_COMMANDS).set 3 p) 4) =
      [a, b, c, p] ++ [(a + b + c + p) % 256] := by
  have hc : (memcpy (List.replicate 4 0) (row cmd) LENGTHOF_COMMANDS).set 3 p =
      [a, b, c, p] := by
    unfold memcpy LENGTHOF_COMMANDS
    rw [hrow]
    rfl
  have hb : bytesAt [a, b, c, p] 4 = [a, b, c, p] := rfl
  rw [hc, sendCommand_nocrc_log, checksum_eq_sum, hb]
  simp only [wire, List.nil_append, List.flatten_cons, List.flatten_nil, List.append_nil,
    List.sum_cons, List.sum_nil, List.cons_append, List.cons.injEq, true_and, and_true]
  omega

/-- The frame of a setter with a 16-bit parameter. -/
theorem setter2_frame (cmd hi lo a b c : Nat) (hrow : bytesAt (row cmd) 3 = [a, b, c]) :
    wire (sendCommand_nocrc []
        (((memcpy (List.replicate 5 0) (row cmd) LENGTHOF_COMMANDS).set 3 hi).set 4 lo) 5) =
      [a, b, c, hi, lo] ++ [(a + b + c + hi + lo) % 256] := by
  have hc : ((memcpy (List.replicate 5 0) (row cmd) LENGTHOF_COMMANDS).set 3 hi).set 4 lo =
      [a, b, c, hi, lo] := by
    unfold memcpy LENGTHOF_COMMANDS
    rw [hrow]
    rfl
  have hb : bytesAt [a, b, c, hi, lo] 5 = [a, b, c, hi, lo] := rfl
  rw [hc, sendCommand_nocrc_log, checksum_eq_sum, hb]
  simp only [wire, List.nil_append, List.flatten_cons, List.flatten_nil, List.append_nil,
    List.sum_cons, List.sum_nil, List.cons_append, List.cons.injEq, true_and, and_true]
  omega

/-- C26: each parameterized setter transmits the header of its command table
row, then its parameter bytes, then the checksum of all bytes before:
`setVolume v` AA 13 01 v, `setCycleMode m` AA 18 01 m, `setEq e` AA 1A 01 e,
`setPlayingDevice d` AA 0B 01 d, `setCycleTimes n` and `select n` AA 19 02 and
AA 1F 02 followed by `n >> 8`, `n & 0xFF`; byte 2 is the number of parameter
bytes, and a one-byte parameter goes out unchanged for every value 0..255. -/
theorem setter_frames (p n : Nat) (hp : p < 256) (hn : n < 65536) :
    wire (setVolume [] p) = [0xAA, 0x13, 0x01, p] ++ [(0xAA + 0x13 + 0x01 + p) % 256] ∧
      wire (setCycleMode [] p) = [0xAA, 0x18, 0x01, p] ++ [(0xAA + 0x18 + 0x01 + p) % 256] ∧
      wire (setEq [] p) = [0xAA, 0x1A, 0x01, p] ++ [(0xAA + 0x1A + 0x01 + p) % 256] ∧
      wire (setPlayingDevice [] p) =
        [0xAA, 0x0B, 0x01, p] ++ [(0xAA + 0x0B + 0x01 + p) % 256] ∧
      wire (setCycleTimes [] n) =
        [0xAA, 0x19, 0x02, n >>> 8, n &&& 0xFF] ++
          [(0xAA + 0x19 + 0x02 + (n >>> 8) + (n &&& 0xFF)) % 256] ∧
      wire (select [] n) =
        [0xAA, 0x1F, 0x02, n >>> 8, n &&& 0xFF] ++
          [(0xAA + 0x1F + 0x02 + (n >>> 8) + (n &&& 0xFF)) % 256] ∧
      (row SETVOLUME_CMD).take 3 = [0xAA, 0x13, 0x01] ∧
      (row SETLOOPMODE_CMD).take 3 = [0xAA, 0x18, 0x01] ∧
      (row SETEQ_CMD).take 3 = [0xAA, 0x1A, 0x01] ∧
      (row SWTICHDRIVE_CMD).take 3 = [0xAA, 0x0B, 0x01] ∧
      (row SETCYCTIMES_CMD).take 3 = [0xAA, 0x19, 0x02] ∧
      (row SLCTBUTNOPLAY_CMD).take 3 = [0xAA, 0x1F, 0x02] := by
  have hu := u8_of_lt hp
  have hhi := u8_of_lt (shiftRight8_lt hn)
  have hlo := u8_of_lt (and255_lt n)
  refine ⟨?_, ?_, ?_, ?_, ?_, ?_, rfl, rfl, rfl, rfl, rfl, rfl⟩
  · unfold setVolume
    exact setter1_frame SETVOLUME_CMD p _ _ _ rfl
  · unfold setCycleMode
    simp only [hu]
    exact setter1_frame SETLOOPMODE_CMD p _ _ _ rfl
  · unfold setEq
    simp only [hu]
    exact setter1_frame SETEQ_CMD p _ _ _ rfl
  · unfold setPlayingDevice
    simp only [hu]
    exact setter1_frame SWTICHDRIVE_CMD p _ _ _ rfl
  · unfold setCycleTimes
    simp only [hhi, hlo]
    exact setter2_frame SETCYCTIMES_CMD _ _ _ _ _ rfl
  · unfold select
    simp only [hhi, hlo]
    exact setter2_frame SLCTBUTNOPLAY_CMD _ _ _ _ _ rfl

theorem setter_frames_witness :
    wire (setVolume [] 200) = [0xAA, 0x13, 0x01, 200] ++ [(0xAA + 0x13 + 0x01 + 200) % 256] ∧
      wire (select [] 0x1234) =
        [0xAA, 0x1F, 0x02, 0x1234 >>> 8, 0x1234 &&& 0xFF] ++
          [(0xAA + 0x1F + 0x02 + (0x1234 >>> 8) + (0x1234 &&& 0xFF)) % 256] :=
  ⟨(setter_frames 200 0x1234 (by decide) (by decide)).1,
    (setter_frames 200 0x1234 (by decide) (by decide)).2.2.2.2.2.1⟩

/-- C27: `previousDir LastSound` transmits `[0xAA, 0x0E, 0x00, 0xB8]`, the row
`PREV_FILE`, and `previousDir song` for every other value of `song`, such as
`FirstSound`, transmits `[0xAA, 0x0F, 0x00, 0xB9]`, the row `NEXT_FILE`. -/
theorem previousDir_frames (song : Nat) :
    wire (previousDir [] LastSound) = [0xAA, 0x0E, 0x00, 0xB8] ∧
      (song ≠ LastSound → wire (previousDir [] song) = [0xAA, 0x0F, 0x00, 0xB9]) ∧
      wire (previousDir [] FirstSound) = [0xAA, 0x0F, 0x00, 0xB9] ∧
      row PREV_FILE = [0xAA, 0x0E, 0x00, 0xB8] ∧ row NEXT_FILE = [0xAA, 0x0F, 0x00, 0xB9] := by
  refine ⟨by decide, fun h => ?_, by decide, by decide, by decide⟩
  unfold previousDir
  rw [if_neg h]
  decide

theorem previousDir_frames_witness :
    wire (previousDir [] 7) = [0xAA, 0x0F, 0x00, 0xB9] :=
  (previousDir_frames 7).2.1 (by decide)

/-! ## Response lengths, partial responses and the device sentinel -/

/-- What `getResponse` returns, in terms of what the read returned. -/
theorem getResponse_flag (read : Reader) (buffer : List Nat) (len : Nat) (h1 : 1 ≤ len)
    (h255 : len ≤ 255) :
    (getResponse read buffer len).1 = (read buffer len).1 ∧
      ((getResponse read buffer len).2 = true ↔
        0 < (read buffer len).2 ∧
          checksum (read buffer len).1 (len - 1) = (read buffer len).1.getD (len - 1) 0) := by
  have hv := validateCrc_accepts (read buffer len).1 len h1 h255
  unfold getResponse
  simp only []
  by_cases hpos : (read buffer len).2 > 0
  · rw [if_pos hpos]
    by_cases hval : validateCrc (read buffer len).1 len = true
    · rw [if_pos hval]
      exact ⟨rfl, fun _ => ⟨hpos, hv.1 hval⟩, fun _ => rfl⟩
    · rw [if_neg hval]
      refine ⟨rfl, fun h => ?_, fun h => ?_⟩
      · exact absurd h Bool.false_ne_true
      · exact absurd (hv.2 h.2) hval
  · rw [if_neg hpos]
    refine ⟨rfl, fun h => ?_, fun h => ?_⟩
    · exact absurd h Bool.false_ne_true
    · exact absurd h.1 hpos

/-- C28, with a receive primitive that answers a request of 5 bytes and a
request of 6 bytes by a valid response carrying 5 resp. 6 as payload:
`checkPlayState` returns 6, as the count queries do in their high byte, and
only `getPlayingDevice` returns 5; and a receive primitive that answers
requests of 5 bytes in the same way but nothing else makes `checkPlayState`
return `Fail`. So `checkPlayState` requests 6 bytes, not 5, with byte-sized
enumerations and without. -/
theorem checkPlayState_requests_six :
    (checkPlayState true lenProbe [] (fun _ => 0)).1 = 6 ∧
      (checkPlayState false lenProbe [] (fun _ => 0)).1 = 6 ∧
      (getPlayingDevice lenProbe [] (fun _ => 0)).1 = 5 ∧
      (getSoundCount lenProbe [] (fun _ => 0)).1 = 6 * 256 ∧
      (checkPlayState true (fun b len => if len = 5 then ([0, 0, 0, 5, 5], 1) else (b, 0)) []
        (fun _ => 0)).1 = Fail ∧
      (checkPlayState false (fun b len => if len = 5 then ([0, 0, 0, 5, 5], 1) else (b, 0)) []
        (fun _ => 0)).1 = Fail := by
  decide

/-- C28 as amended: every query operation reads a response of fixed size, 6
bytes for `checkPlayState` and for the four count queries, 5 bytes for
`getPlayingDevice`; the checksum it validates is the last byte of that length,
against the sum of the bytes before it. The value `checkPlayState` then
returns is the cast `(play_state_t) buffer[3]`, whatever the width of the
enumeration. -/
theorem query_read_lengths (shortEnums : Bool) (read : Reader) (junk : Nat → Nat) :
    (checkPlayState shortEnums read [] junk).1 =
        (if 0 < (read (uninit junk 6) 6).2 ∧
            checksum (read (uninit junk 6) 6).1 5 = (read (uninit junk 6) 6).1.getD 5 0
          then play_state_cast shortEnums ((read (uninit junk 6) 6).1.getD 3 0) else Fail) ∧
      ((getSoundCount read [] junk).1 =
        (if 0 < (read (uninit junk 6) 6).2 ∧
            checksum (read (uninit junk 6) 6).1 5 = (read (uninit junk 6) 6).1.getD 5 0
          then be16 (read (uninit junk 6) 6).1 else 0)) ∧
      ((getPlayingSound read [] junk).1 =
        (if 0 < (read (uninit junk 6) 6).2 ∧
            checksum (read (uninit junk 6) 6).1 5 = (read (uninit junk 6) 6).1.getD 5 0
          then be16 (read (uninit junk 6) 6).1 else 0)) ∧
      ((getFirstInDir read [] junk).1 =
        (if 0 < (read (uninit junk 6) 6).2 ∧
            checksum (read (uninit junk 6) 6).1 5 = (read (uninit junk 6) 6).1.getD 5 0
          then be16 (read (uninit junk 6) 6).1 else 0)) ∧
      ((getSoundCountDir read [] junk).1 =
        (if 0 < (read (uninit junk 6) 6).2 ∧
            checksum (read (uninit junk 6) 6).1 5 = (read (uninit junk 6) 6).1.getD 5 0
          then be16 (read (uninit junk 6) 6).1 else 0)) ∧
      (getPlayingDevice read [] junk).1 =
        (if 0 < (read (uninit junk 5) 5).2 ∧
            checksum (read (uninit junk 5) 5).1 4 = (read (uninit junk 5) 5).1.getD 4 0
          then (read (uninit junk 5) 5).1.getD 3 0 else Failed) := by
  obtain ⟨b6, f6⟩ := getResponse_flag read (uninit junk 6) 6 (by decide) (by decide)
  obtain ⟨b5, f5⟩ := getResponse_flag read (uninit junk 5) 5 (by decide) (by decide)
  have h6 : (5 : Nat) = 6 - 1 := rfl
  have h5 : (4 : Nat) = 5 - 1 := rfl
  have hcount : ∀ q ∈ [getSoundCount, getPlayingSound, getFirstInDir, getSoundCountDir],
      (q read [] junk).1 =
        (if 0 < (read (uninit junk 6) 6).2 ∧
            checksum (read (uninit junk 6) 6).1 5 = (read (uninit junk 6) 6).1.getD 5 0
          then be16 (read (uninit junk 6) 6).1 else 0) := by
    intro q hq
    simp only [List.mem_cons, List.mem_singleton, List.not_mem_nil, or_false] at hq
    by_cases hf : (getResponse read (uninit junk 6) 6).2 = true
    · rw [if_pos (f6.1 hf)]
      rcases hq with rfl | rfl | rfl | rfl
      · simp only [getSoundCount, hf, if_true, b6]
      · simp only [getPlayingSound, hf, if_true, b6]
      · simp only [getFirstInDir, hf, if_true, b6]
      · simp only [getSoundCountDir, hf, if_true, b6]
    · rw [if_neg (fun h => hf (f6.2 h))]
      rcases hq with rfl | rfl | rfl | rfl
      · simp only [getSoundCount, hf]; rfl
      · simp only [getPlayingSound, hf]; rfl
      · simp only [getFirstInDir, hf]; rfl
      · simp only [getSoundCountDir, hf]; rfl
  refine ⟨?_, hcount _ (by simp), hcount _ (by simp), hcount _ (by simp),
    hcount _ (by simp), ?_⟩
  · unfold checkPlayState
    simp only [b6]
    by_cases hf : (getResponse read (uninit junk 6) 6).2 = true
    · rw [if_pos hf, if_pos (f6.1 hf)]
    · rw [if_neg hf, if_neg (fun h => hf (f6.2 h))]
  · unfold getPlayingDevice
    simp only [b5]
    by_cases hf : (getResponse read (uninit junk 5) 5).2 = true
    · rw [if_pos hf, if_pos (f5.1 hf)]
    · rw [if_neg hf, if_neg (fun h => hf (f5.2 h))]

/-- A response of at most the requested size overwrites the start of the
buffer and leaves the rest as it was. -/
theorem serialRead_short (rx : List Nat) (junk : Nat → Nat) (n : Nat) (h : rx.length ≤ n) :
    serialRead rx (uninit junk n) n = (rx ++ (uninit junk n).drop rx.length, 1) := by
  simp only [serialRead, HAL_UART_Receive, uninit_length, List.take_of_length_le h]

theorem getResponse_short (rx : List Nat) (junk : Nat → Nat) (n : Nat) (h : rx.length ≤ n) :
    getResponse (serialRead rx) (uninit junk n) n =
      (rx ++ (uninit junk n).drop rx.length,
        validateCrc (rx ++ (uninit junk n).drop rx.length) n) := by
  unfold getResponse
  simp only [serialRead_short rx junk n h]
  cases validateCrc (rx ++ (uninit junk n).drop rx.length) n <;> simp

/-- C29, with 5 of the 6 requested bytes delivered and a buffer that held
0xAD at index 5: the buffer after the read passes `validateCrc` and
`checkPlayState` returns `Playing`, with byte-sized enumerations and without;
likewise `getSoundCount` returns 300 after 4 of 6 bytes and `getPlayingDevice`
returns `Sd` after 4 of 5 bytes. -/
theorem partial_response_accepted :
    (checkPlayState true (serialRead [0xAA, 0x01, 0x01, 0x01, 0x00]) []
        (fun i => if i = 5 then 0xAD else 0)).1 = Playing ∧
      (checkPlayState false (serialRead [0xAA, 0x01, 0x01, 0x01, 0x00]) []
        (fun i => if i = 5 then 0xAD else 0)).1 = Playing ∧
      Playing ≠ Fail ∧
      (getSoundCount (serialRead [0xAA, 0x0C, 0x02, 0x01]) []
        (fun i => if i = 4 then 0x2C else if i = 5 then 0xE5 else 0)).1 = 300 ∧
      (getPlayingDevice (serialRead [0xAA, 0x0A, 0x01, 0x01]) []
        (fun i => if i = 4 then 0xB6 else 0)).1 = Sd ∧
      Sd ≠ Failed := by
  decide

/-- C29 as amended: when the read delivers a part of the requested response,
the receive buffer holds the delivered bytes followed by what it held before
at the remaining places; the query returns its failure value when that buffer
fails `validateCrc`, and the value decoded from that buffer when it passes:
the cast `(play_state_t) buffer[3]` for `checkPlayState`, whatever the width
of the enumeration, `(buffer[3] << 8) | buffer[4]` for the count queries,
`buffer[3]` for `getPlayingDevice`. -/
theorem partial_response_value (shortEnums : Bool) (junk : Nat → Nat) (rx : List Nat)
    (_hpos : 0 < rx.length) :
    (rx.length < 6 →
        (validateCrc (rx ++ (uninit junk 6).drop rx.length) 6 = false →
          (checkPlayState shortEnums (serialRead rx) [] junk).1 = Fail ∧
          (getSoundCount (serialRead rx) [] junk).1 = 0 ∧
          (getPlayingSound (serialRead rx) [] junk).1 = 0 ∧
          (getFirstInDir (serialRead rx) [] junk).1 = 0 ∧
          (getSoundCountDir (serialRead rx) [] junk).1 = 0) ∧
        (validateCrc (rx ++ (uninit junk 6).drop rx.length) 6 = true →
          (checkPlayState shortEnums (serialRead rx) [] junk).1 =
            play_state_cast shortEnums ((rx ++ (uninit junk 6).drop rx.length).getD 3 0) ∧
          (getSoundCount (serialRead rx) [] junk).1 =
            be16 (rx ++ (uninit junk 6).drop rx.length) ∧
          (getPlayingSound (serialRead rx) [] junk).1 =
            be16 (rx ++ (uninit junk 6).drop rx.length) ∧
          (getFirstInDir (serialRead rx) [] junk).1 =
            be16 (rx ++ (uninit junk 6).drop rx.length) ∧
          (getSoundCountDir (serialRead rx) [] junk).1 =
            be16 (rx ++ (uninit junk 6).drop rx.length))) ∧
      (rx.length < 5 →
        (validateCrc (rx ++ (uninit junk 5).drop rx.length) 5 = false →
          (getPlayingDevice (serialRead rx) [] junk).1 = Failed) ∧
        (validateCrc (rx ++ (uninit junk 5).drop rx.length) 5 = true →
          (getPlayingDevice (serialRead rx) [] junk).1 =
            (rx ++ (uninit junk 5).drop rx.length).getD 3 0)) := by
  refine ⟨fun h6 => ?_, fun h5 => ?_⟩
  · have hg := getResponse_short rx junk 6 (Nat.le_of_lt h6)
    refine ⟨fun hv => ?_, fun hv => ?_⟩
    · simp [checkPlayState, getSoundCount, getPlayingSound, getFirstInDir, getSoundCountDir,
        hg, hv]
    · simp [checkPlayState, getSoundCount, getPlayingSound, getFirstInDir, getSoundCountDir,
        hg, hv]
  · have hg := getResponse_short rx junk 5 (Nat.le_of_lt h5)
    refine ⟨fun hv => ?_, fun hv => ?_⟩
    · simp [getPlayingDevice, hg, hv]
    · simp [getPlayingDevice, hg, hv]

theorem partial_response_value_witness :
    (checkPlayState true (serialRead [0xAA, 0x01, 0x01, 0x01, 0x00]) [] (fun _ => 0)).1
        = Fail ∧
      (getSoundCount (serialRead [0xAA, 0x0C, 0x02, 0x01]) []
        (fun i => if i = 4 then 0x2C else if i = 5 then 0xE5 else 0)).1 =
        be16 ([0xAA, 0x0C, 0x02, 0x01] ++
          (uninit (fun i => if i = 4 then 0x2C else if i = 5 then 0xE5 else 0) 6).drop 4) ∧
      (getPlayingDevice (serialRead [0xAA, 0x0A, 0x01, 0x01]) [] (fun _ => 0)).1 = Failed :=
  ⟨(((partial_response_value true (fun _ => 0) [0xAA, 0x01, 0x01, 0x01, 0x00] (by decide)).1
      (by decide)).1 (by decide)).1,
    (((partial_response_value true
      (fun i => if i = 4 then 0x2C else if i = 5 then 0xE5 else 0)
      [0xAA, 0x0C, 0x02, 0x01] (by decide)).1 (by decide)).2 (by decide)).2.1,
    ((partial_response_value true (fun _ => 0) [0xAA, 0x0A, 0x01, 0x01] (by decide)).2
      (by decide)).1 (by decide)⟩

/-- C30, at the 5-byte response `AA 0A 01 FE B3`: it passes `validateCrc` and
`getPlayingDevice` returns `Failed`, the value of its payload byte. -/
theorem valid_response_returns_Failed :
    validateCrc [0xAA, 0x0A, 0x01, 0xFE, 0xB3] 5 = true ∧
      [0xAA, 0x0A, 0x01, 0xFE, 0xB3].length = 5 ∧
      (getPlayingDevice (serialRead [0xAA, 0x0A, 0x01, 0xFE, 0xB3]) [] (fun _ => 0)).1
        = Failed := by
  decide

/-- C30 as amended: a 5-byte response that passes `validateCrc` makes
`getPlayingDevice` return `Failed` exactly when its payload byte `buffer[3]` is
0xFE, the value of `Failed`; so no valid response with another payload byte,
such as those of `Usb`, `Sd`, `Flash` and `NoDevice`, does. -/
theorem getPlayingDevice_Failed_iff (junk : Nat → Nat) (rx : List Nat) (hlen : rx.length = 5)
    (hcrc : validateCrc rx 5 = true) :
    ((getPlayingDevice (serialRead rx) [] junk).1 = Failed ↔ rx.getD 3 0 = 0xFE) ∧
      (rx.getD 3 0 = Usb ∨ rx.getD 3 0 = Sd ∨ rx.getD 3 0 = Flash ∨ rx.getD 3 0 = NoDevice →
        (getPlayingDevice (serialRead rx) [] junk).1 ≠ Failed) := by
  have hg := getResponse_full rx junk 5 hlen
  have a : (getPlayingDevice (serialRead rx) [] junk).1 = rx.getD 3 0 := by
    unfold getPlayingDevice
    simp only [device_value, hg, hcrc, if_true]
  rw [a]
  refine ⟨Iff.rfl, fun h hF => ?_⟩
  rw [hF] at h
  exact absurd h (by decide)

theorem getPlayingDevice_Failed_iff_witness :
    ((getPlayingDevice (serialRead [0xAA, 0x0A, 0x01, 0x01, 0xB6]) [] (fun _ => 0)).1 = Failed ↔
        [0xAA, 0x0A, 0x01, 0x01, 0xB6].getD 3 0 = 0xFE) ∧
      (getPlayingDevice (serialRead [0xAA, 0x0A, 0x01, 0x01, 0xB6]) [] (fun _ => 0)).1 ≠ Failed :=
  ⟨(getPlayingDevice_Failed_iff (fun _ => 0) [0xAA, 0x0A, 0x01, 0x01, 0xB6] rfl (by decide)).1,
    (getPlayingDevice_Failed_iff (fun _ => 0) [0xAA, 0x0A, 0x01, 0x01, 0xB6] rfl (by decide)).2
      (Or.inr (Or.inl rfl))⟩

/-! ## Combination play against the one-shot path, and 16-bit parameters -/

/-- The bytes `combinationPlay` transmits for a playlist of `len >= 1` tokens
of two bytes. -/
theorem combinationPlay_wire (sounds : List (List Nat)) (len : Nat) (h1 : 1 ≤ len)
    (hlen : len = sounds.length) (htok : ∀ t ∈ sounds, t.length = 2) :
    wire (combinationPlay [] sounds len) =
      ([0xAA, 0x1B, u8 (len * 2)] ++ sounds.flatten) ++
        [([0xAA, 0x1B, u8 (len * 2)] ++ sounds.flatten).sum % 256] := by
  have ht : (List.range len).map (fun i => bytesAt (sounds.getD i []) 2) = sounds := by
    rw [tokens_eq_take sounds len (Nat.le_of_eq hlen) htok, hlen, List.take_length]
  rw [combinationPlay_log sounds len h1, ht]
  simp only [wire, List.flatten_append, List.flatten_cons, List.flatten_nil, List.append_nil,
    List.sum_append, List.sum_cons, List.sum_nil, List.append_assoc, List.cons_append,
    List.nil_append]
  have hs : (170 + 27 + u8 (len * 2) + sounds.flatten.sum) % 256 =
      (170 + (27 + (u8 (len * 2) + sounds.flatten.sum))) % 256 := by omega
  rw [hs]

/-- C31: the checksum threaded token by token gives the stream of the one-shot
path: for every `len` from 1 to 126 and every array of `len` two-byte tokens,
the bytes `combinationPlay` transmits are the bytes `sendCommand_nocrc`
transmits for the assembled buffer `[0xAA, 0x1B, 2*len]`, `token_0`, ...,
`token_{len-1}` of length `3 + 2*len`. -/
theorem combinationPlay_eq_oneShot (sounds : List (List Nat)) (len : Nat) (h1 : 1 ≤ len)
    (h126 : len ≤ 126) (hlen : len = sounds.length) (htok : ∀ t ∈ sounds, t.length = 2) :
    wire (combinationPlay [] sounds len) = wire (combinationPlayOneShot [] sounds len) ∧
      wire (combinationPlayOneShot [] sounds len) =
        wire (sendCommand_nocrc [] ([0xAA, 0x1B, 2 * len] ++ sounds.flatten) (3 + 2 * len)) ∧
      ([0xAA, 0x1B, 2 * len] ++ sounds.flatten).length = 3 + 2 * len := by
  have hu : u8 (len * 2) = 2 * len := by unfold u8; omega
  have hu3 : u8 (3 + 2 * len) = 3 + 2 * len := u8_of_lt (by omega)
  have hf := flatten_length_two sounds htok
  have hl : ([0xAA, 0x1B, 2 * len] ++ sounds.flatten).length = 3 + 2 * len := by
    simp only [List.length_append, List.length_cons, List.length_nil, hf]
    omega
  have hone : combinationPlayOneShot [] sounds len =
      sendCommand_nocrc [] ([0xAA, 0x1B, 2 * len] ++ sounds.flatten) (3 + 2 * len) := by
    unfold combinationPlayOneShot
    simp only [hu3]
    rw [hlen, List.take_length]
  refine ⟨?_, by rw [hone], hl⟩
  rw [combinationPlay_wire sounds len h1 hlen htok, hu, hone, sendCommand_nocrc_log,
    checksum_eq_sum]
  conv_rhs => rw [← hl, bytesAt_full]
  simp [wire]

theorem combinationPlay_eq_oneShot_witness :
    wire (combinationPlay [] sounds123 3) = wire (combinationPlayOneShot [] sounds123 3) :=
  (combinationPlay_eq_oneShot sounds123 3 (by decide) (by decide) rfl (by decide)).1

/-- C32: for every `len` from 128 to 255 the length byte of the header that
`combinationPlay` transmits is `(2*len) mod 256 = 2*len - 256`, while `2*len`
token bytes follow the header, so the announced parameter length is not the
number of parameter bytes sent; for `len` from 1 to 127 the two are equal. -/
theorem combinationPlay_length_byte (sounds : List (List Nat)) (len : Nat)
    (hlen : len = sounds.length) (htok : ∀ t ∈ sounds, t.length = 2) :
    (128 ≤ len → len ≤ 255 →
        (wire (combinationPlay [] sounds len)).getD 2 0 = (2 * len) % 256 ∧
        (2 * len) % 256 = 2 * len - 256 ∧
        ((wire (combinationPlay [] sounds len)).drop 3).dropLast = sounds.flatten ∧
        sounds.flatten.length = 2 * len ∧
        (wire (combinationPlay [] sounds len)).getD 2 0 ≠ sounds.flatten.length) ∧
      (1 ≤ len → len ≤ 127 →
        (wire (combinationPlay [] sounds len)).getD 2 0 = 2 * len ∧
        ((wire (combinationPlay [] sounds len)).drop 3).dropLast = sounds.flatten ∧
        sounds.flatten.length = 2 * len) := by
  have hf := flatten_length_two sounds htok
  have hcount : sounds.flatten.length = 2 * len := by rw [hf, hlen]
  have hshape : 1 ≤ len →
      (wire (combinationPlay [] sounds len)).getD 2 0 = (len * 2) % 256 ∧
        ((wire (combinationPlay [] sounds len)).drop 3).dropLast = sounds.flatten := by
    intro h1
    rw [combinationPlay_wire sounds len h1 hlen htok]
    refine ⟨rfl, ?_⟩
    simp only [List.cons_append, List.nil_append, List.drop_succ_cons, List.drop_zero,
      List.dropLast_concat]
  refine ⟨fun h128 h255 => ?_, fun h1 h127 => ?_⟩
  · obtain ⟨a, b⟩ := hshape (by omega)
    refine ⟨by rw [a]; omega, by omega, b, hcount, ?_⟩
    rw [a, hcount]
    omega
  · obtain ⟨a, b⟩ := hshape h1
    exact ⟨by rw [a]; omega, b, hcount⟩

theorem combinationPlay_length_byte_witness :
    ((wire (combinationPlay [] (List.replicate 128 [0x30, 0x31]) 128)).getD 2 0 =
        (2 * 128) % 256 ∧
      (List.replicate 128 [0x30, 0x31]).flatten.length = 2 * 128 ∧
      (wire (combinationPlay [] (List.replicate 128 [0x30, 0x31]) 128)).getD 2 0 ≠
        (List.replicate 128 [0x30, 0x31]).flatten.length) ∧
      (wire (combinationPlay [] sounds123 3)).getD 2 0 = 2 * 3 :=
  ⟨⟨((combinationPlay_length_byte (List.replicate 128 [0x30, 0x31]) 128 (by simp)
        (fun t ht => by rw [List.eq_of_mem_replicate ht]; rfl)).1 (by decide) (by decide)).1,
      ((combinationPlay_length_byte (List.replicate 128 [0x30, 0x31]) 128 (by simp)
        (fun t ht => by rw [List.eq_of_mem_replicate ht]; rfl)).1 (by decide)
          (by decide)).2.2.2.1,
      ((combinationPlay_length_byte (List.replicate 128 [0x30, 0x31]) 128 (by simp)
        (fun t ht => by rw [List.eq_of_mem_replicate ht]; rfl)).1 (by decide)
          (by decide)).2.2.2.2⟩,
    ((combinationPlay_length_byte sounds123 3 rfl (by decide)).2 (by decide) (by decide)).1⟩

/-- The frame of the three operations with a 16-bit parameter carries the
parameter at indices 3 and 4, high byte first. -/
theorem param16_frame (cmd n a b c : Nat) (hn : n < 65536)
    (hrow : bytesAt (row cmd) 3 = [a, b, c]) :
    wire (sendCommand_nocrc []
        (((memcpy (List.replicate 5 0) (row cmd) LENGTHOF_COMMANDS).set 3 (u8 (n >>> 8))).set 4
          (u8 (n &&& 0xff))) 5) =
      [a, b, c, n / 256, n % 256] ++ [(a + b + c + n / 256 + n % 256) % 256] := by
  have hhi : u8 (n >>> 8) = n / 256 := by
    rw [u8_of_lt (shiftRight8_lt hn), Nat.shiftRight_eq_div_pow]
  have hlo : u8 (n &&& 0xff) = n % 256 := by
    rw [u8_of_lt (and255_lt n)]
    exact Nat.and_pow_two_sub_one_eq_mod n 8
  rw [hhi, hlo]
  exact setter2_frame cmd _ _ a b c hrow

/-- C33: the 16-bit parameter encoding and the response decoding are inverse
to each other: for every `n` in 0..65535, the rule `(b3 << 8) | b4` of the
count queries, applied to the bytes `n >> 8` and `n & 0xFF` that
`playSpecified`, `select` and `setCycleTimes` put at indices 3 and 4 of their
frame, gives `n`; and for every pair of bytes at indices 3 and 4 of a buffer,
encoding the decoded value gives the pair back. -/
theorem param16_inverse (n : Nat) (buffer : List Nat) (hn : n < 65536)
    (h3 : buffer.getD 3 0 < 256) (h4 : buffer.getD 4 0 < 256) :
    be16 (wire (playSpecified [] n)) = n ∧
      be16 (wire (select [] n)) = n ∧
      be16 (wire (setCycleTimes [] n)) = n ∧
      be16 [0, 0, 0, n >>> 8, n &&& 0xFF] = n ∧
      be16 buffer >>> 8 = buffer.getD 3 0 ∧
      be16 buffer &&& 0xFF = buffer.getD 4 0 ∧
      (wire (playSpecified [] (be16 buffer))).getD 3 0 = buffer.getD 3 0 ∧
      (wire (playSpecified [] (be16 buffer))).getD 4 0 = buffer.getD 4 0 ∧
      (wire (select [] (be16 buffer))).getD 3 0 = buffer.getD 3 0 ∧
      (wire (select [] (be16 buffer))).getD 4 0 = buffer.getD 4 0 ∧
      (wire (setCycleTimes [] (be16 buffer))).getD 3 0 = buffer.getD 3 0 ∧
      (wire (setCycleTimes [] (be16 buffer))).getD 4 0 = buffer.getD 4 0 := by
  have hdec : ∀ a b c crc : Nat, be16 ([a, b, c, n / 256, n % 256] ++ [crc]) = n := by
    intro a b c crc
    rw [be16_eq _ (by simp [List.getD_eq_getElem?_getD]; omega)
      (by simp [List.getD_eq_getElem?_getD]; omega)]
    simp only [List.cons_append, List.nil_append, List.getD_eq_getElem?_getD,
      List.getElem?_cons_succ, List.getElem?_cons_zero, Option.getD_some]
    omega
  have hbe := be16_eq buffer h3 h4
  have hm : be16 buffer < 65536 := by rw [hbe]; omega
  have hdiv : be16 buffer / 256 = buffer.getD 3 0 := by rw [hbe]; omega
  have hmod : be16 buffer % 256 = buffer.getD 4 0 := by rw [hbe]; omega
  have hps : ∀ m : Nat, m < 65536 → wire (playSpecified [] m) =
      [0xAA, 0x07, 0x02, m / 256, m % 256] ++ [(0xAA + 0x07 + 0x02 + m / 256 + m % 256) % 256] :=
    fun m hm => param16_frame SPECIFIEDSONG_CMD m _ _ _ hm rfl
  have hsel : ∀ m : Nat, m < 65536 → wire (select [] m) =
      [0xAA, 0x1F, 0x02, m / 256, m % 256] ++ [(0xAA + 0x1F + 0x02 + m / 256 + m % 256) % 256] :=
    fun m hm => param16_frame SLCTBUTNOPLAY_CMD m _ _ _ hm rfl
  have hcyc : ∀ m : Nat, m < 65536 → wire (setCycleTimes [] m) =
      [0xAA, 0x19, 0x02, m / 256, m % 256] ++ [(0xAA + 0x19 + 0x02 + m / 256 + m % 256) % 256] :=
    fun m hm => param16_frame SETCYCTIMES_CMD m _ _ _ hm rfl
  have hraw : be16 [0, 0, 0, n >>> 8, n &&& 0xFF] = n := by
    have e1 : n >>> 8 = n / 256 := Nat.shiftRight_eq_div_pow n 8
    have e2 : n &&& 0xFF = n % 256 := Nat.and_pow_two_sub_one_eq_mod n 8
    rw [e1, e2, be16_eq _ (by simp [List.getD_eq_getElem?_getD]; omega)
      (by simp [List.getD_eq_getElem?_getD]; omega)]
    simp only [List.getD_eq_getElem?_getD, List.getElem?_cons_succ, List.getElem?_cons_zero,
      Option.getD_some]
    omega
  refine ⟨by rw [hps n hn]; exact hdec _ _ _ _, by rw [hsel n hn]; exact hdec _ _ _ _,
    by rw [hcyc n hn]; exact hdec _ _ _ _, hraw, ?_, ?_, ?_, ?_, ?_, ?_, ?_, ?_⟩
  · rw [Nat.shiftRight_eq_div_pow]; exact hdiv
  · rw [show (0xFF : Nat) = 2 ^ 8 - 1 from rfl, Nat.and_pow_two_sub_one_eq_mod]; exact hmod
  · rw [hps _ hm, ← hdiv]; rfl
  · rw [hps _ hm, ← hmod]; rfl
  · rw [hsel _ hm, ← hdiv]; rfl
  · rw [hsel _ hm, ← hmod]; rfl
  · rw [hcyc _ hm, ← hdiv]; rfl
  · rw [hcyc _ hm, ← hmod]; rfl

theorem param16_inverse_witness :
    be16 (wire (playSpecified [] 300)) = 300 ∧
      be16 (wire (select [] 300)) = 300 ∧
      be16 (wire (setCycleTimes [] 300)) = 300 ∧
      (wire (playSpecified [] (be16 [0xAA, 0x0C, 0x02, 0x01, 0x2C, 0xE5]))).getD 3 0 =
        [0xAA, 0x0C, 0x02, 0x01, 0x2C, 0xE5].getD 3 0 ∧
      (wire (playSpecified [] (be16 [0xAA, 0x0C, 0x02, 0x01, 0x2C, 0xE5]))).getD 4 0 =
        [0xAA, 0x0C, 0x02, 0x01, 0x2C, 0xE5].getD 4 0 :=
  ⟨(param16_inverse 300 [0xAA, 0x0C, 0x02, 0x01, 0x2C, 0xE5] (by decide) (by decide)
      (by decide)).1,
    (param16_inverse 300 [0xAA, 0x0C, 0x02, 0x01, 0x2C, 0xE5] (by decide) (by decide)
      (by decide)).2.1,
    (param16_inverse 300 [0xAA, 0x0C, 0x02, 0x01, 0x2C, 0xE5] (by decide) (by decide)
      (by decide)).2.2.1,
    (param16_inverse 300 [0xAA, 0x0C, 0x02, 0x01, 0x2C, 0xE5] (by decide) (by decide)
      (by decide)).2.2.2.2.2.2.1,
    (param16_inverse 300 [0xAA, 0x0C, 0x02, 0x01, 0x2C, 0xE5] (by decide) (by decide)
      (by decide)).2.2.2.2.2.2.2.1⟩

end DYPlayer
